import Mathlib

/-!
Verification development for the wclib templating / server-side-rendering
library.  The definitions below are shallow embeddings of the TypeScript
sources:

* `src/lib/template-fn.ts`  — the change-gated template memoizer
  (`TemplateFn._renderWithTemplater` and friends);
* `src/lib/ssr/ssr.ts`      — the SSR engine (dependency maps, the render
  tree model with `Tag.walk`, slot resolution, CSS scoping, and the
  `renderElement` pipeline).

Modelling conventions:

* JavaScript objects used as string-keyed records become association lists
  (`List (key × value)`); assignment keeps the position of an existing key
  and appends a fresh key, exactly like JS property assignment.
* Attribute values are `Option String`: `some s` is the string `s`,
  `none` is the JS value `undefined` (whose string coercion is
  `"undefined"`).
* The nested `WeakMap` cache `templaterMap` becomes an association list
  keyed by `(templater identity, component identity)` whose values are the
  innermost template-keyed maps.  Object identities are natural numbers.
* Throwing code is embedded in `Except`; state mutated before a throw is
  kept, state that would have been mutated after it is not, mirroring JS
  exception propagation.
* The external HTML parser (`htmlparser2`), CSS parser/printer (`css`
  package) and the `Props` collaborator are pluggable collaborators per the
  architecture; they are abstracted as explicit function parameters.
* Unbounded recursion in the source (`buildMap`, `Tag.walk`,
  `elementToTag`) is embedded with explicit fuel; `none` / a fuel-out
  error marks a run that would not have returned in JS with that much
  recursion depth available, and divergence of the source corresponds to
  exhausting every fuel.
-/

namespace Wclib

/-! ### CHANGE_TYPE (src/lib/template-fn.ts, const enum CHANGE_TYPE) -/

def CT_PROP : Nat := 1
def CT_THEME : Nat := 2
def CT_NEVER : Nat := 4
def CT_LANG : Nat := 8
def CT_ALWAYS : Nat := 11
def CT_FORCE : Nat := 27

/-! ### Generic JS-object association-list operations -/

/-- JS property read: value of the first (and in a JS object only) entry
with the key, if any. -/
def kvGet {κ α : Type} [DecidableEq κ] : List (κ × α) → κ → Option α
  | [], _ => none
  | p :: ps, k => if p.1 = k then some p.2 else kvGet ps k

/-- JS property assignment: replaces the value in place if the key exists,
otherwise appends the key at the end (JS insertion order). -/
def kvSet {κ α : Type} [DecidableEq κ] (m : List (κ × α)) (k : κ) (v : α) :
    List (κ × α) :=
  if m.any (fun p => p.1 = k) then
    m.map (fun p => if p.1 = k then (k, v) else p)
  else m ++ [(k, v)]

/-- JS `in` / `hasOwnProperty` (own keys only; the prototype chain of the
plain objects used by the library is not modelled). -/
def kvHas {κ α : Type} [DecidableEq κ] (m : List (κ × α)) (k : κ) : Bool :=
  m.any (fun p => p.1 = k)

/-- JS object spread `{...a, ...b}`: keys of `a` in order with values
overridden by `b` where present, then the keys of `b` that are new, in
`b`'s order. -/
def spreadMergeL {α : Type} (a b : List (String × α)) : List (String × α) :=
  a.map (fun p =>
    match b.find? (fun q => q.1 = p.1) with
    | some q => (p.1, q.2)
    | none => p)
  ++ b.filter (fun q => !(a.any (fun p => p.1 = q.1)))

/-- String-keyed attribute bag (`BaseTypes.Attributes`); a value of `none`
is the JS value `undefined`. -/
abbrev Attrs := List (String × Option String)

/-- Opaque string-keyed theme object (`BaseTypes.Theme`). -/
abbrev Theme := List (String × String)

/-! ### Memoizer value domain (src/lib/template-fn.ts)

`TemplateRenderResult` values, restricted to the shapes the claims need:

* `.str s`  — a plain string (falsy when empty, like JS `''`);
* `.null`   — the JS value `null` returned for a null template (falsy);
* `.txt s`  — an object carrying a recognized text form (`toText()` or
  `strings`/`values`), flattening to `s`; objects are always truthy;
* `.raw n`  — an opaque object with no recognized text form (truthy);
  `_templateResultToText` throws on it.
-/

inductive Rendered : Type where
  | null : Rendered
  | str : String → Rendered
  | txt : String → Rendered
  | raw : Nat → Rendered
deriving DecidableEq, Repr

/-- JS truthiness of a `Rendered` value. -/
def truthyR : Rendered → Bool
  | .null => false
  | .str s => !(s = "")
  | .txt _ => true
  | .raw _ => true

/-- Errors crossing the memoizer boundary: a value thrown by the template
function (`.user`), the `TypeError` raised when a `null` template is
`.call`ed on the non-NEVER path, and the `Error` thrown by
`_templateResultToText` when a result has no recognized text form. -/
inductive RErr : Type where
  | user : Nat → RErr
  | nullCall : RErr
  | noTextForm : RErr
deriving DecidableEq, Repr

/-- A `TemplateFn` as the memoizer sees it: an identity (`WeakMap` key),
the `changeOn` bitmask, and the optional template function.  The template
function receives the component's props snapshot, its resolved theme and
the change type, and either returns a `Rendered` value or throws.  (The
templater argument and the `jsx` shim do not influence the cache logic and
are not modelled.) -/
structure MTemplateFn : Type where
  id : Nat
  changeOn : Nat
  template : Option (Attrs → Theme → Nat → Except RErr Rendered)

/-- The innermost cache level: the `WeakMap<TemplateFn, any>` stored for a
fixed (templater, component) pair, keyed by template identity. -/
abbrev TMap := List (Nat × Rendered)

def tmGet (tm : TMap) (k : Nat) : Option Rendered := kvGet tm k

def tmSet (tm : TMap) (k : Nat) (v : Rendered) : TMap := kvSet tm k v

def tmHas (tm : TMap) (k : Nat) : Bool := kvHas tm k

/-- `TemplateFn._renderWithTemplater` (template-fn.ts lines 288–356) for a
fixed (templater, component) pair whose innermost cache is `tm`.

Returns (result, cache after the call, whether the template function was
invoked).  The last component is a ghost flag marking exactly the
`this._template.call(...)` sites of the source.

Source structure mirrored:
* `if (this.changeOn & CHANGE_TYPE.NEVER)`: `const cached =
  templateMap.get(this); if (cached) { ... }` — note the truthiness test,
  not a `has` test; a falsy cached value (empty string, null) falls
  through to recomputation.  A `null` template yields `null` without a
  call; the result is cached and `changed: true` is returned.
* otherwise `if (this.changeOn & changeType || !templateMap.has(this))`
  recomputes and overwrites the cache (`changed: true`); calling a `null`
  template here throws a `TypeError`.
* otherwise the cached value is returned unchanged (`changed: false`). -/
def renderWithTemplater (fn : MTemplateFn) (props : Attrs) (theme : Theme)
    (changeType : Nat) (tm : TMap) :
    Except RErr (Bool × Rendered) × TMap × Bool :=
  if fn.changeOn &&& CT_NEVER ≠ 0 then
    match tmGet tm fn.id with
    | some cached =>
      if truthyR cached then
        (.ok (false, cached), tm, false)
      else
        match fn.template with
        | none => (.ok (true, .null), tmSet tm fn.id .null, false)
        | some t =>
          match t props theme changeType with
          | .error e => (.error e, tm, true)
          | .ok r => (.ok (true, r), tmSet tm fn.id r, true)
    | none =>
      match fn.template with
      | none => (.ok (true, .null), tmSet tm fn.id .null, false)
      | some t =>
        match t props theme changeType with
        | .error e => (.error e, tm, true)
        | .ok r => (.ok (true, r), tmSet tm fn.id r, true)
  else if fn.changeOn &&& changeType ≠ 0 || !(tmHas tm fn.id) then
    match fn.template with
    | none => (.error .nullCall, tm, false)
    | some t =>
      match t props theme changeType with
      | .error e => (.error e, tm, true)
      | .ok r => (.ok (true, r), tmSet tm fn.id r, true)
  else
    (.ok (false, (tmGet tm fn.id).getD .null), tm, false)

/-- The NEVER-masked template of the C3 failing input: its template
function always returns the empty string (a falsy, perfectly legal
`TemplateRenderResult`). -/
def fnNeverEmpty : MTemplateFn :=
  { id := 0, changeOn := CT_NEVER,
    template := some (fun _ _ _ => .ok (.str "")) }

/-- A template function that always throws (failing input for the C6
witness). -/
def fnThrowing : MTemplateFn :=
  { id := 0, changeOn := CT_PROP,
    template := some (fun _ _ _ => .error (.user 7)) }

/-- A well-behaved PROP-masked template (C2 witness input). -/
def fnPropConst : MTemplateFn :=
  { id := 3, changeOn := CT_PROP,
    template := some (fun _ _ _ => .ok (.str "out")) }

/-! ### Render tree model (ssr.ts, namespace `_TextToTags`)

`Tag` has a tag name, an attribute map, a self-closing flag and ordered
children; `TextTag` is literal text.  Both are merged into one inductive;
`copy()`/`setChildren` become functional updates. -/

inductive PTag : Type where
  | tag : String → Attrs → Bool → List PTag → PTag
  | text : String → PTag
deriving Repr

mutual

def decEqPTag : (a b : PTag) → Decidable (a = b)
  | .text s, .text t =>
    match decEq s t with
    | isTrue h => isTrue (by rw [h])
    | isFalse h => isFalse (fun hh => h (by cases hh; rfl))
  | .text _, .tag _ _ _ _ => isFalse (fun h => PTag.noConfusion h)
  | .tag _ _ _ _, .text _ => isFalse (fun h => PTag.noConfusion h)
  | .tag n1 a1 s1 c1, .tag n2 a2 s2 c2 =>
    match decEq n1 n2, decEq a1 a2, decEq s1 s2, decEqPTagList c1 c2 with
    | isTrue h1, isTrue h2, isTrue h3, isTrue h4 =>
      isTrue (by rw [h1, h2, h3, h4])
    | isFalse h1, _, _, _ => isFalse (fun hh => h1 (by cases hh; rfl))
    | _, isFalse h2, _, _ => isFalse (fun hh => h2 (by cases hh; rfl))
    | _, _, isFalse h3, _ => isFalse (fun hh => h3 (by cases hh; rfl))
    | _, _, _, isFalse h4 => isFalse (fun hh => h4 (by cases hh; rfl))

def decEqPTagList : (a b : List PTag) → Decidable (a = b)
  | [], [] => isTrue rfl
  | [], _ :: _ => isFalse (fun h => List.noConfusion h)
  | _ :: _, [] => isFalse (fun h => List.noConfusion h)
  | x :: xs, y :: ys =>
    match decEqPTag x y, decEqPTagList xs ys with
    | isTrue h1, isTrue h2 => isTrue (by rw [h1, h2])
    | isFalse h1, _ => isFalse (fun hh => h1 (by cases hh; rfl))
    | _, isFalse h2 => isFalse (fun hh => h2 (by cases hh; rfl))

end

instance : DecidableEq PTag := decEqPTag

instance : DecidableEq (List PTag) := decEqPTagList

/-- `Tag.setChildren` (ssr.ts line 316), functionally: same node with the
children list replaced.  A `TextTag` has no children and is unchanged. -/
def setChildren : PTag → List PTag → PTag
  | .tag n a sc _, cs => .tag n a sc cs
  | .text c, _ => .text c

def childrenOf : PTag → List PTag
  | .tag _ _ _ cs => cs
  | .text _ => []

def isTagNode : PTag → Bool
  | .tag _ _ _ _ => true
  | .text _ => false

/-- Read of `tag.attributes[k]`: `none` when the key is absent,
`some v` (with `v : Option String`) when present. -/
def attrRead (a : Attrs) (k : String) : Option (Option String) := kvGet a k

/-- `tag.attributes.hasOwnProperty(k)`. -/
def attrHas (a : Attrs) (k : String) : Bool := kvHas a k

/-- JS string coercion of an attribute value used as an object key or in
serialization: `undefined` coerces to `"undefined"`; an absent property
reads as `undefined`. -/
def jsVal : Option (Option String) → String
  | some (some s) => s
  | some none => "undefined"
  | none => "undefined"

/-! #### Attribute serialization (`_Attributes.stringify`, ssr.ts 190–205) -/

/-- `_Attributes._toString` restricted to the modelled value domain:
strings pass through, `undefined` becomes `"undefined"`. -/
def attrToString : Option String → String
  | some s => s
  | none => "undefined"

/-- `key="value"` with `"` escaped to `&quot;`. -/
def stringifyPair (p : String × Option String) : String :=
  p.1 ++ "=" ++ "\"" ++ (attrToString p.2).replace "\"" "&quot;" ++ "\""

/-- `_Attributes.stringify`: empty bag gives the empty string, otherwise a
leading space and the space-joined `key="value"` parts. -/
def stringifyAttrs (a : Attrs) : String :=
  if a.isEmpty then ""
  else " " ++ String.intercalate " " (a.map stringifyPair)

/-! #### Serialization (`Tag.toText` / `TextTag.toText`, ssr.ts 345–374) -/

mutual

def toText : PTag → String
  | .text c => c
  | .tag n a sc cs =>
    if sc && cs.isEmpty then
      "<" ++ n ++ stringifyAttrs a ++ "/>"
    else
      "<" ++ n ++ stringifyAttrs a ++ ">" ++ toTextList cs ++ "</" ++ n ++ ">"

def toTextList : List PTag → String
  | [] => ""
  | c :: cs => toText c ++ toTextList cs

end

/-! #### `Tag.walk` (ssr.ts 321–343)

The handler of the source may mutate shared state, so the embedding
threads an explicit state `σ`.  The source reads

    const result = handler(this);
    const { stop, newTag } = result || { stop: true, newTag: this };
    if (newTag instanceof TextTag || stop) return newTag;
    return newTag.copy().setChildren(newTag.children.map(c => c.walk(handler)));

so a handler returning `undefined` (`none` here) defaults to
`stop: true` with the node itself, and descent happens only when the
handler explicitly returns `stop: false`.  `TextTag.walk` returns the node
without consulting the handler.  The recursion of the source is through
the handler-supplied `newTag`, which structural recursion cannot bound,
hence the fuel; `none` marks fuel exhaustion. -/

mutual

def walkF {σ : Type} (handler : σ → PTag → σ × Option (PTag × Bool)) :
    Nat → σ → PTag → Option (σ × PTag)
  | _, s, .text c => some (s, .text c)
  | 0, _, .tag _ _ _ _ => none
  | fuel + 1, s, .tag n a sc ch =>
    let step := handler s (.tag n a sc ch)
    match step.2.getD (.tag n a sc ch, true) with
    | (.text c, _) => some (step.1, .text c)
    | (.tag n2 a2 sc2 ch2, stop) =>
      if stop then some (step.1, .tag n2 a2 sc2 ch2)
      else
        match walkChildrenF handler fuel step.1 ch2 with
        | none => none
        | some (s2, ch3) => some (s2, .tag n2 a2 sc2 ch3)
termination_by fuel _ _ => (fuel, 0)

def walkChildrenF {σ : Type} (handler : σ → PTag → σ × Option (PTag × Bool)) :
    Nat → σ → List PTag → Option (σ × List PTag)
  | _, s, [] => some (s, [])
  | fuel, s, c :: cs =>
    match walkF handler fuel s c with
    | none => none
    | some (s1, c1) =>
      match walkChildrenF handler fuel s1 cs with
      | none => none
      | some (s2, cs2) => some (s2, c1 :: cs2)
termination_by fuel _ l => (fuel, l.length + 1)

end

/-! ### Slot resolution (ssr.ts, namespace `_Replacement._Slots`) -/

/-- `_Slots.SlotReceivers`: the named slot placeholders keyed by the
string coercion of their `name` attribute, and the at most one unnamed
placeholder. -/
structure SlotReceivers : Type where
  named : List (String × PTag)
  unnamed : Option PTag
deriving Repr

/-- `_Slots.Slottables`. -/
structure Slottables : Type where
  named : List (String × PTag)
  unnamed : List PTag
deriving Repr

/-- Handler of `_findSlotReceivers` (ssr.ts 468–500): a `<slot>` tag is
registered — named slots under their `name` attribute with the first
registration kept (`slots.named[slotName] = slots.named[slotName] || tag`),
the unnamed slot likewise kept first — and the walk is stopped at it; any
other node yields `return;` (here `none`). -/
def receiverHandler (s : SlotReceivers) (t : PTag) :
    SlotReceivers × Option (PTag × Bool) :=
  match t with
  | .tag n a sc ch =>
    if n = "slot" then
      if attrHas a "name" then
        let slotName := jsVal (attrRead a "name")
        ({ s with named :=
            match kvGet s.named slotName with
            | some _ => s.named
            | none => kvSet s.named slotName (.tag n a sc ch) },
          some (.tag n a sc ch, true))
      else
        ({ s with unnamed :=
            match s.unnamed with
            | some u => some u
            | none => some (.tag n a sc ch) },
          some (.tag n a sc ch, true))
    else (s, none)
  | .text _ => (s, none)

/-- `_Slots._findSlotReceivers`: `root.forEach(t => t.walk(handler))`,
collecting into the shared `slots` record; the walk results are
discarded. -/
def findSlotReceiversF (fuel : Nat) :
    List PTag → SlotReceivers → Option SlotReceivers
  | [], s => some s
  | t :: ts, s =>
    match walkF receiverHandler fuel s t with
    | none => none
    | some (s1, _) => findSlotReceiversF fuel ts s1

/-- Handler of `_findSlottables` (ssr.ts 502–529): every `Tag` stops the
walk; one with a `slot` attribute is recorded under that attribute's
string coercion, first occurrence winning, all others are appended to the
unnamed list.  (The handler's `return;` for non-`Tag` nodes is dead code:
`TextTag.walk` never calls the handler.) -/
def slottableHandler (s : Slottables) (t : PTag) :
    Slottables × Option (PTag × Bool) :=
  match t with
  | .tag n a sc ch =>
    if attrHas a "slot" then
      let slotName := jsVal (attrRead a "slot")
      ({ s with named :=
          match kvGet s.named slotName with
          | some _ => s.named
          | none => kvSet s.named slotName (.tag n a sc ch) },
        some (.tag n a sc ch, true))
    else
      ({ s with unnamed := s.unnamed ++ [.tag n a sc ch] },
        some (.tag n a sc ch, true))
  | .text _ => (s, none)

/-- `_Slots._findSlottables`. -/
def findSlottablesF (fuel : Nat) :
    List PTag → Slottables → Option Slottables
  | [], s => some s
  | t :: ts, s =>
    match walkF slottableHandler fuel s t with
    | none => none
    | some (s1, _) => findSlottablesF fuel ts s1

/-- The `unslotted` list of `_replaceSlots` (ssr.ts 531–550):
the unnamed slottables followed by every named slottable without a
matching named receiver, in key iteration order. -/
def unslottedOf (receivers : SlotReceivers) (slottables : Slottables) :
    List PTag :=
  slottables.unnamed ++
    (slottables.named.filter
      (fun q => (kvGet receivers.named q.1).isNone)).map (fun q => q.2)

/-- `_Slots._replaceSlots` as a transformer of the receiver record: each
named receiver with a matching named slottable gets that slottable as its
sole child; the unnamed receiver, when present, gets the `unslotted` list
as its children (even when empty).  In the source these are in-place
`setChildren` mutations of the receiver nodes. -/
def replaceSlots (receivers : SlotReceivers) (slottables : Slottables) :
    SlotReceivers :=
  { named := receivers.named.map (fun p =>
      match kvGet slottables.named p.1 with
      | some slottable => (p.1, setChildren p.2 [slottable])
      | none => p),
    unnamed := receivers.unnamed.map
      (fun u => setChildren u (unslottedOf receivers slottables)) }

/-- State of the write-back pass below: which named receivers and whether
the unnamed receiver have already been reached, so that only the node that
`_findSlotReceivers` registered (the first in traversal order) is
replaced. -/
structure RebuildSt : Type where
  seenNames : List String
  seenUnnamed : Bool

/-- Functional rendition of the in-place mutation performed by
`_replaceSlots`: the traversal repeats `_findSlotReceivers`'s walk (same
handler shape, same stops) and substitutes each registered receiver node
by its updated version from `replaced`; every other node, and every later
slot with an already-seen name, is returned unchanged. -/
def rebuildHandler (replaced : SlotReceivers) (st : RebuildSt) (t : PTag) :
    RebuildSt × Option (PTag × Bool) :=
  match t with
  | .tag n a sc ch =>
    if n = "slot" then
      if attrHas a "name" then
        let slotName := jsVal (attrRead a "name")
        if st.seenNames.contains slotName then
          (st, some (.tag n a sc ch, true))
        else
          ({ st with seenNames := st.seenNames ++ [slotName] },
            some ((kvGet replaced.named slotName).getD (.tag n a sc ch), true))
      else
        if st.seenUnnamed then (st, some (.tag n a sc ch, true))
        else
          ({ st with seenUnnamed := true },
            some (replaced.unnamed.getD (.tag n a sc ch), true))
    else (st, none)
  | .text _ => (st, none)

def rebuildChildrenF (fuel : Nat) (replaced : SlotReceivers) :
    List PTag → RebuildSt → Option (List PTag)
  | [], _ => some []
  | t :: ts, st =>
    match walkF (rebuildHandler replaced) fuel st t with
    | none => none
    | some (st1, t1) =>
      match rebuildChildrenF fuel replaced ts st1 with
      | none => none
      | some ts1 => some (t1 :: ts1)

/-- `_Slots.applySlots` (ssr.ts 552–556): find the receivers in the
element's own children, the slottables in the light DOM's children, and
perform `_replaceSlots`'s mutations, returning the updated element. -/
def applySlotsF (fuel : Nat) (element lightDOM : PTag) : Option PTag :=
  match findSlotReceiversF fuel (childrenOf element) ⟨[], none⟩ with
  | none => none
  | some receivers =>
    match findSlottablesF fuel (childrenOf lightDOM) ⟨[], []⟩ with
    | none => none
    | some slottables =>
      let replaced := replaceSlots receivers slottables
      match rebuildChildrenF fuel replaced (childrenOf element) ⟨[], false⟩ with
      | none => none
      | some ch => some (setChildren element ch)

/-! ### Component definitions and the dependency resolver

A component definition (`BaseTypes.BaseClass`) carries a tag name (`is`),
declared dependencies, an HTML template, CSS templates, and the reflect /
priv property configuration its `Props` collaborator exposes.  Because
dependency graphs may be cyclic, definitions live in a finite environment
`env : List DefSpec` and reference each other by index; object identity is
the index. -/

/-- `props.__config`: which attribute keys the props configuration names
under `reflect` and under `priv`.  A field that is absent/undefined in JS
is `none`; a present (even empty) object is `some keys`. -/
structure PropsConfig : Type where
  reflect : Option (List String)
  priv : Option (List String)

structure DefSpec : Type where
  is : Option String
  dependencies : List Nat
  html : Option MTemplateFn
  css : List MTemplateFn
  config : Option PropsConfig

/-- Tag-name → definition-index map (`BaseTypes.DepdendencyMap`). -/
abbrev DepMap := List (String × Nat)

mutual

/-- `SSR._Rendering.Dependencies.buildMap` (ssr.ts 257–270):

    if (element.is) { map[element.is] = element; }
    for (const dependency of element.dependencies || []) {
        buildMap(dependency, map);
    }
    return map;

The registration is an unconditional assignment (a later definition with
the same tag name overwrites an earlier one) and there is no visited set,
so the recursion is bounded only by the dependency graph; the fuel bounds
the recursion depth, each level passing `fuel` to all its dependencies.
`none` means the recursion exceeded the given depth. -/
def buildMapF (env : List DefSpec) : Nat → Nat → DepMap → Option DepMap
  | 0, _, _ => none
  | fuel + 1, i, map =>
    match env[i]? with
    | none => some map
    | some d =>
      let map1 :=
        match d.is with
        | some s => kvSet map s i
        | none => map
      buildDepsF env fuel d.dependencies map1
termination_by fuel _ _ => (fuel, 0)

def buildDepsF (env : List DefSpec) : Nat → List Nat → DepMap → Option DepMap
  | _, [], map => some map
  | fuel, dep :: rest, map =>
    match buildMapF env fuel dep map with
    | none => none
    | some m => buildDepsF env fuel rest m
termination_by fuel deps _ => (fuel, deps.length + 1)

end

mutual

/-- The sequence of `map[element.is] = element` registrations that
`buildMap` performs, in visit order (same traversal and fuel discipline as
`buildMapF`). -/
def regSeqF (env : List DefSpec) : Nat → Nat → Option (List (String × Nat))
  | 0, _ => none
  | fuel + 1, i =>
    match env[i]? with
    | none => some []
    | some d =>
      let here :=
        match d.is with
        | some s => [(s, i)]
        | none => []
      match regSeqDepsF env fuel d.dependencies with
      | none => none
      | some rest => some (here ++ rest)
termination_by fuel _ => (fuel, 0)

def regSeqDepsF (env : List DefSpec) : Nat → List Nat → Option (List (String × Nat))
  | _, [] => some []
  | fuel, dep :: rest =>
    match regSeqF env fuel dep with
    | none => none
    | some s1 =>
      match regSeqDepsF env fuel rest with
      | none => none
      | some s2 => some (s1 ++ s2)
termination_by fuel deps => (fuel, deps.length + 1)

end

/-- The last value registered for a key in a registration sequence. -/
def lastRegOf (s : List (String × Nat)) (k : String) : Option Nat :=
  s.foldl (fun acc p => if p.1 = k then some p.2 else acc) none

/-- Reachability along declared dependency edges. -/
inductive Reaches (env : List DefSpec) : Nat → Nat → Prop where
  | refl : ∀ i, Reaches env i i
  | step : ∀ i d j k, env[i]? = some d → j ∈ d.dependencies →
      Reaches env j k → Reaches env i k

/-- The cyclic two-definition environment of the C1 counterexample:
definition `A` (tag name `a`) depends on `B` (tag name `b`) and `B`
depends back on `A`. -/
def envCyc : List DefSpec :=
  [ { is := some "a", dependencies := [1], html := none, css := [],
      config := none },
    { is := some "b", dependencies := [0], html := none, css := [],
      config := none } ]

/-- Environment of the C7 counterexample: a root `r` whose two distinct
dependencies (indices 1 and 2) both declare the tag name `x`. -/
def envDup : List DefSpec :=
  [ { is := some "r", dependencies := [1, 2], html := none, css := [],
      config := none },
    { is := some "x", dependencies := [], html := none, css := [],
      config := none },
    { is := some "x", dependencies := [], html := none, css := [],
      config := none } ]

/-- Acyclic environment used by the C1 witness: `a` depends on `b`,
`b` has no dependencies. -/
def envAcyc : List DefSpec :=
  [ { is := some "a", dependencies := [1], html := none, css := [],
      config := none },
    { is := some "b", dependencies := [], html := none, css := [],
      config := none } ]

/-- Topological ranking of `envAcyc` for the C1 witness. -/
def rankAcyc : Nat → Nat
  | 0 => 1
  | _ => 0

/-! ### `_Properties.splitAttributes` (ssr.ts 209–253) -/

structure SplitAttrs : Type where
  attributes : Attrs
  publicProps : Attrs
  privateProps : Attrs
deriving Repr

/-- The body of `splitAttributes`' `for (const key in attributes)` loop:
a key named in `reflect` goes to `publicProps`, one named in `priv` to
`privateProps`; any other key is assigned via the source's

    attribs[key] = attribs[key];

i.e. the *current* value of that key in the freshly created `attribs`
object — `undefined` — rather than `attributes[key]`. -/
def splitStep (reflect priv : List String) (acc : SplitAttrs)
    (p : String × Option String) : SplitAttrs :=
  if p.1 ∈ reflect then
    { acc with publicProps := kvSet acc.publicProps p.1 p.2 }
  else if p.1 ∈ priv then
    { acc with privateProps := kvSet acc.privateProps p.1 p.2 }
  else
    { acc with
        attributes :=
          kvSet acc.attributes p.1 ((kvGet acc.attributes p.1).getD none) }

/-- `_Properties.splitAttributes`.  The two early returns (`!element.props
|| !props.__config`, and `!config.reflect && !config.priv`) hand the
attribute bag back unchanged; otherwise `const { reflect = {}, priv = {} }
= config` and the loop above runs over the passed keys. -/
def splitAttributes (config : Option PropsConfig) (attributes : Attrs) :
    SplitAttrs :=
  match config with
  | none => { attributes := attributes, publicProps := [], privateProps := [] }
  | some cfg =>
    if cfg.reflect.isNone && cfg.priv.isNone then
      { attributes := attributes, publicProps := [], privateProps := [] }
    else
      attributes.foldl (splitStep (cfg.reflect.getD []) (cfg.priv.getD []))
        { attributes := [], publicProps := [], privateProps := [] }

/-! ### CSS scoping (ssr.ts, namespace `_CSS`) -/

/-- One entry of a parsed stylesheet's `rules` array.  `selectors = none`
covers both a line without a `selectors` field (e.g. a comment node) and
one whose `selectors` is falsy — `addPrefix` leaves those untouched;
`rest` is the rule's remaining payload (declarations), opaque here. -/
structure CSSRule : Type where
  selectors : Option (List String)
  rest : String
deriving DecidableEq, Repr

/-- `CSSText.addPrefix` on a parsed rule list: every selector `s` of every
rule that has selectors becomes `prefix + "-" + s`. -/
def prefixRules (pfx : String) (rules : List CSSRule) : List CSSRule :=
  rules.map (fun r =>
    match r.selectors with
    | none => r
    | some sels => { r with selectors := some (sels.map (fun s => pfx ++ "-" ++ s)) })

/-- The pluggable collaborators of the SSR engine: the HTML parser
(`htmlparser2` behind `_Parser.parse`, also used with the CSS tag bases),
and the `css` package's `parse`/`stringify`.  `cssParse` returning
`.error` is the collaborator throwing, which `CSSText.parse` wraps in a
`CSSParseError`. -/
structure Collab : Type where
  parseHTML : String → List PTag
  cssParse : String → Except Unit (List CSSRule)
  cssStringify : List CSSRule → String

/-- `CSSTag.elementGlobal` / `CSSText.elementGlobal` (ssr.ts 625–630):
`changeOn === CHANGE_TYPE.THEME || !!(changeOn & CHANGE_TYPE.NEVER)`. -/
def elementGlobalCO (changeOn : Nat) : Bool :=
  changeOn == CT_THEME || changeOn &&& CT_NEVER != 0

/-- Pipeline failures: `RenderError` (a throwing render function, wrapped
by `Errors._renderError`), `CSSParseError` (stylesheet text that failed to
parse, carrying the source text), plus two modelling artifacts: `fuelOut`
marks recursion deeper than the supplied fuel, `badRef` an out-of-range
definition index (unreachable for well-formed environments). -/
inductive PipeErr : Type where
  | renderError : RErr → PipeErr
  | cssParseError : String → PipeErr
  | fuelOut : PipeErr
  | badRef : PipeErr
deriving DecidableEq, Repr

mutual

/-- `_CSS._walkCSSSheets` composed with `addPrefix` + `stringify`
(ssr.ts 749–781): every text node of a style tag's subtree has its content
parsed, its selectors prefixed, and is re-serialized; a parse failure
aborts with a `CSSParseError` carrying the source text. -/
def prefixSheetTagM (P : Collab) (pfx : String) : PTag → Except PipeErr PTag
  | .text content =>
    match P.cssParse content with
    | .error _ => .error (.cssParseError content)
    | .ok rules => .ok (.text (P.cssStringify (prefixRules pfx rules)))
  | .tag n a sc ch =>
    match prefixSheetListM P pfx ch with
    | .error e => .error e
    | .ok ch2 => .ok (.tag n a sc ch2)

def prefixSheetListM (P : Collab) (pfx : String) :
    List PTag → Except PipeErr (List PTag)
  | [] => .ok []
  | t :: ts =>
    match prefixSheetTagM P pfx t with
    | .error e => .error e
    | .ok t2 =>
      match prefixSheetListM P pfx ts with
      | .error e => .error e
      | .ok ts2 => .ok (t2 :: ts2)

end

mutual

/-- `_CSS._addHTMLPrefixes` (ssr.ts 783–808), specialised through
`Tag.walk`: its handler always returns the node with the two scoping ids
pushed onto its class list and `stop: tagName.includes('-')`, so the walk
recurses exactly into the children of non-custom tags; text nodes are
untouched (the walk never hands them to the handler). -/
def prefixHTMLTag (uniqueID componentID : String) : PTag → PTag
  | .text c => .text c
  | .tag n a sc ch =>
    let classNames :=
      (match kvGet a "class" with
        | some (some s) => s.splitOn " "
        | _ => []) ++ [uniqueID, componentID]
    let a2 := kvSet a "class" (some (String.intercalate " " classNames))
    if n.contains '-' then .tag n a2 sc ch
    else .tag n a2 sc (prefixHTMLList uniqueID componentID ch)

def prefixHTMLList (uniqueID componentID : String) : List PTag → List PTag
  | [] => []
  | t :: ts =>
    prefixHTMLTag uniqueID componentID t :: prefixHTMLList uniqueID componentID ts

end

/-- `_CSS._flatten` restricted to one level of nesting. -/
def flattenGroups (groups : List (Nat × List PTag)) : List PTag :=
  groups.foldr (fun g acc => g.2 ++ acc) []

/-! ### The global memoizer cache and session state -/

/-- The module-level `templaterMap`, flattened one level: keyed by
(templater identity, component identity), holding the innermost
template-keyed map.  In SSR every render goes through
`TemplateFn._textRenderer`, whose identity is `0`. -/
abbrev GC := List ((Nat × Nat) × TMap)

/-- Reading the nested maps; absent levels behave as freshly created empty
`WeakMap`s, exactly like the source's `if (!map.has(k)) map.set(k, new
WeakMap())` preamble. -/
def gcGet (gc : GC) (k : Nat × Nat) : TMap := (kvGet gc k).getD []

def gcSet (gc : GC) (k : Nat × Nat) (tm : TMap) : GC := kvSet gc k tm

/-- Freshness of an instance-identity allocator with respect to the global
cache: no component identity at or above the next identity to be
allocated has an entry in the cache.  Freshly constructed stand-in
instances of the source can never be keys of the pre-existing
`WeakMap`s. -/
def FreshGC (gc : GC) (n : Nat) : Prop :=
  ∀ k : Nat × Nat, n ≤ k.2 → kvGet gc k = none

/-- `DocumentSession` (ssr.ts 62–69): `_cssIdentifierMap` (definition →
counter), `_sheetSet` (definitions whose global CSS has been emitted),
`_unnamedElements` (starts at 1), `_elementMap`. -/
structure SessionM : Type where
  cssIdentifierMap : List (Nat × Nat)
  sheetSet : List Nat
  unnamedElements : Nat
  elementMap : DepMap
deriving DecidableEq, Repr

/-- A fresh `new DocumentSession()`. -/
def freshSession : SessionM :=
  { cssIdentifierMap := [], sheetSet := [], unnamedElements := 1,
    elementMap := [] }

/-- The full mutable state threaded through a render: the session, the
module-level templater cache, and the instance-identity allocator. -/
structure PState : Type where
  session : SessionM
  gc : GC
  nextId : Nat

/-! ### Rendering templates to text

`TemplateFn.renderAsText` (template-fn.ts 391–401) =
`_renderWithTemplater` with the `_textRenderer` templater followed by
`_templateResultToText` for non-string results.  (`_lastRenderChanged`
only feeds `renderIfNew`, which SSR never calls; it is not modelled.)
`renderAsTextTM` is the same computation on the innermost cache level. -/

def renderAsTextTM (tm : TMap) (props : Attrs) (theme : Theme)
    (fn : MTemplateFn) : Except RErr (String × TMap) :=
  match renderWithTemplater fn props theme CT_ALWAYS tm with
  | (.error e, _, _) => .error e
  | (.ok (_, rendered), tm2, _) =>
    match rendered with
    | .str s => .ok (s, tm2)
    | .null => .ok ("", tm2)
    | .txt s => .ok (s, tm2)
    | .raw _ => .error .noTextForm

def renderAsTextM (gc : GC) (cid : Nat) (props : Attrs) (theme : Theme)
    (fn : MTemplateFn) : Except RErr (String × GC) :=
  match renderAsTextTM (gcGet gc (0, cid)) props theme fn with
  | .error e => .error e
  | .ok (s, tm2) => .ok (s, gcSet gc (0, cid) tm2)

/-- `_TextToTags._tryRender` (ssr.ts 867–879):
`template?.renderAsText(CHANGE_TYPE.ALWAYS, instance) || ''` with every
thrown error wrapped into a `RenderError`. -/
def tryRenderM (gc : GC) (cid : Nat) (props : Attrs) (theme : Theme) :
    Option MTemplateFn → Except PipeErr (String × GC)
  | none => .ok ("", gc)
  | some fn =>
    match renderAsTextM gc cid props theme fn with
    | .error e => .error (.renderError e)
    | .ok p => .ok p

/-- Innermost-cache-level variant of `tryRenderM` (proof reference). -/
def tryRenderTM (tm : TMap) (props : Attrs) (theme : Theme) :
    Option MTemplateFn → Except PipeErr (String × TMap)
  | none => .ok ("", tm)
  | some fn =>
    match renderAsTextTM tm props theme fn with
    | .error e => .error (.renderError e)
    | .ok p => .ok p

/-! ### `_CSS._parseElementCSS` and `_CSS.getCSSApplied` (ssr.ts 702–864) -/

/-- `_parseElementCSS`: render each CSS template of the definition as text
with the component instance `cid`, parse the result with the (shared)
parser, keep the top-level tags, and stamp them with the template's
`changeOn` (`setChangeOn`), which determines `elementGlobal` for the whole
group. -/
def parseElementCSSM (P : Collab) (cid : Nat) (props : Attrs)
    (theme : Theme) (gc : GC) :
    List MTemplateFn → Except PipeErr (List (Nat × List PTag) × GC)
  | [] => .ok ([], gc)
  | tpl :: rest =>
    match tryRenderM gc cid props theme (some tpl) with
    | .error e => .error e
    | .ok (text, gc2) =>
      let sheets := (P.parseHTML text).filter isTagNode
      match parseElementCSSM P cid props theme gc2 rest with
      | .error e => .error e
      | .ok (groups, gc3) => .ok ((tpl.changeOn, sheets) :: groups, gc3)

/-- Innermost-cache-level variant of `parseElementCSSM` (proof
reference). -/
def parseElementCSSTM (P : Collab) (props : Attrs) (theme : Theme)
    (tm : TMap) :
    List MTemplateFn → Except PipeErr (List (Nat × List PTag) × TMap)
  | [] => .ok ([], tm)
  | tpl :: rest =>
    match tryRenderTM tm props theme (some tpl) with
    | .error e => .error e
    | .ok (text, tm2) =>
      let sheets := (P.parseHTML text).filter isTagNode
      match parseElementCSSTM P props theme tm2 rest with
      | .error e => .error e
      | .ok (groups, tm3) => .ok ((tpl.changeOn, sheets) :: groups, tm3)

/-- `_CSS._addCSSPrefixes` (ssr.ts 763–781): every sheet is rewritten with
the component id when it is element-global, the unique id otherwise. -/
def addCSSPrefixesM (P : Collab) (uniqueID componentID : String) :
    List (Nat × List PTag) → Except PipeErr (List (Nat × List PTag))
  | [] => .ok []
  | (co, sheets) :: rest =>
    let pfx := if elementGlobalCO co then componentID else uniqueID
    match prefixSheetListM P pfx sheets with
    | .error e => .error e
    | .ok sheets2 =>
      match addCSSPrefixesM P uniqueID componentID rest with
      | .error e => .error e
      | .ok rest2 => .ok ((co, sheets2) :: rest2)

/-- `_CSS.getCSSApplied` (ssr.ts 822–864).  `_generateUniqueID` draws the
per-definition counter (creating it at 0) and increments it;
`_generateComponentID` is the fixed `css-<tagName>`.  The element-global
sheets are emitted only when the definition is not yet in `_sheetSet`
(its first expansion in the session); unique sheets are always emitted;
the HTML children get both ids appended to their class lists. -/
def getCSSAppliedM (P : Collab) (d : DefSpec) (elemIdx : Nat) (cid : Nat)
    (tagName : String) (props : Attrs) (theme : Theme)
    (children : List PTag) (st : PState) :
    Except PipeErr (List PTag × PState) :=
  let num := (kvGet st.session.cssIdentifierMap elemIdx).getD 0
  let session1 :=
    { st.session with
        cssIdentifierMap := kvSet st.session.cssIdentifierMap elemIdx (num + 1) }
  let uniqueID := "css-" ++ tagName ++ "-" ++ toString num
  let componentID := "css-" ++ tagName
  match parseElementCSSM P cid props theme st.gc d.css with
  | .error e => .error e
  | .ok (parsed, gc2) =>
    match addCSSPrefixesM P uniqueID componentID parsed with
    | .error e => .error e
    | .ok prefixed =>
      let htmlPrefixed := children.map (prefixHTMLTag uniqueID componentID)
      let isFirstElementRender := !(session1.sheetSet.contains elemIdx)
      let session2 :=
        { session1 with
            sheetSet :=
              if session1.sheetSet.contains elemIdx then session1.sheetSet
              else session1.sheetSet ++ [elemIdx] }
      let globals := flattenGroups (prefixed.filter (fun g => elementGlobalCO g.1))
      let uniques := flattenGroups (prefixed.filter (fun g => !(elementGlobalCO g.1)))
      .ok ((if isFirstElementRender then globals else []) ++ uniques ++ htmlPrefixed,
        { st with session := session2, gc := gc2 })

/-- Innermost-cache-level variant of `getCSSAppliedM` (proof reference):
the CSS templates are rendered against the given per-instance cache `tm`
instead of the global cache, and the session alone is threaded. -/
def getCSSAppliedPure (P : Collab) (d : DefSpec) (elemIdx : Nat)
    (tm : TMap) (tagName : String) (props : Attrs) (theme : Theme)
    (children : List PTag) (sess : SessionM) :
    Except PipeErr (List PTag × SessionM) :=
  let num := (kvGet sess.cssIdentifierMap elemIdx).getD 0
  let session1 :=
    { sess with
        cssIdentifierMap := kvSet sess.cssIdentifierMap elemIdx (num + 1) }
  let uniqueID := "css-" ++ tagName ++ "-" ++ toString num
  let componentID := "css-" ++ tagName
  match parseElementCSSTM P props theme tm d.css with
  | .error e => .error e
  | .ok (parsed, _) =>
    match addCSSPrefixesM P uniqueID componentID parsed with
    | .error e => .error e
    | .ok prefixed =>
      let htmlPrefixed := children.map (prefixHTMLTag uniqueID componentID)
      let isFirstElementRender := !(session1.sheetSet.contains elemIdx)
      let session2 :=
        { session1 with
            sheetSet :=
              if session1.sheetSet.contains elemIdx then session1.sheetSet
              else session1.sheetSet ++ [elemIdx] }
      let globals := flattenGroups (prefixed.filter (fun g => elementGlobalCO g.1))
      let uniques := flattenGroups (prefixed.filter (fun g => !(elementGlobalCO g.1)))
      .ok ((if isFirstElementRender then globals else []) ++ uniques ++ htmlPrefixed,
        session2)

/-! ### The SSR driver (ssr.ts 881–960)

`elementToTag` constructs the stand-in instance (a fresh object identity
drawn from `nextId`; its `_attributes` stays empty because the modelled
template functions do not call `setAttribute`), renders the HTML template,
parses it, splits the attribute bag, expands nested custom elements
(`_Replacement.replace`), applies the CSS scoping and assembles the final
tag with attributes `{...attributes, ...publicProps,
...instance._attributes}`. -/

mutual

def elementToTagM (P : Collab) (env : List DefSpec) :
    Nat → Nat → Attrs → Theme → PState → Except PipeErr (PTag × PState)
  | 0, _, _, _, _ => .error .fuelOut
  | fuel + 1, elemIdx, attribs, theme, st =>
    match env[elemIdx]? with
    | none => .error .badRef
    | some d =>
      -- const tagName = element.is || `wclib-element${session._unnamedElements++}`
      let tagName :=
        match d.is with
        | some s => s
        | none => "wclib-element" ++ toString st.session.unnamedElements
      let st1 :=
        match d.is with
        | some _ => st
        | none =>
          { st with
              session :=
                { st.session with
                    unnamedElements := st.session.unnamedElements + 1 } }
      -- const instance = new wrappedClass()
      let cid := st1.nextId
      let st2 := { st1 with nextId := cid + 1 }
      -- const text = _tryRender(instance, element.html)
      match tryRenderM st2.gc cid attribs theme d.html with
      | .error e => .error e
      | .ok (text, gc1) =>
        let st3 := { st2 with gc := gc1 }
        let tags := P.parseHTML text
        let sp := splitAttributes d.config attribs
        match replaceM P env fuel tags theme st3 with
        | .error e => .error e
        | .ok (children, st4) =>
          match getCSSAppliedM P d elemIdx cid tagName attribs theme children st4 with
          | .error e => .error e
          | .ok (cssApplied, st5) =>
            let instanceAttrs : Attrs := []
            .ok (.tag tagName
              (spreadMergeL (spreadMergeL sp.attributes sp.publicProps) instanceAttrs)
              false cssApplied, st5)
termination_by fuel _ _ _ _ => (fuel, 0, 0)

/-- `_Replacement.replace` (ssr.ts 588–598):
`tags.map(t => t.walk(tag => _mapTag(tag, theme, session)))`. -/
def replaceM (P : Collab) (env : List DefSpec) :
    Nat → List PTag → Theme → PState → Except PipeErr (List PTag × PState)
  | _, [], _, st => .ok ([], st)
  | fuel, t :: ts, theme, st =>
    match replaceOneM P env fuel t theme st with
    | .error e => .error e
    | .ok (t2, st2) =>
      match replaceM P env fuel ts theme st2 with
      | .error e => .error e
      | .ok (ts2, st3) => .ok (t2 :: ts2, st3)
termination_by fuel ts _ _ => (fuel, 2, ts.length + 1)

/-- One `t.walk(_mapTag ...)` call.  `_mapTag` (ssr.ts 559–586) returns
`undefined` for text nodes and for tags that are not a known custom
element — and `Tag.walk` turns an `undefined` handler result into
`{ stop: true, newTag: this }`, so the walk returns the node unchanged
without visiting its children.  For a known custom element `_mapTag`
expands it through `elementToTag`, applies the slots from the original
node's children and returns `{ newTag, stop: true }`; `_mapTag` never
returns `stop: false`, so this single handler step is the whole walk. -/
def replaceOneM (P : Collab) (env : List DefSpec) :
    Nat → PTag → Theme → PState → Except PipeErr (PTag × PState)
  | _, .text c, _, st => .ok (.text c, st)
  | fuel, .tag n a sc ch, theme, st =>
    if n.contains '-' then
      match kvGet st.session.elementMap n with
      | none => .ok (.tag n a sc ch, st)
      | some elemIdx =>
        match elementToTagM P env fuel elemIdx a theme st with
        | .error e => .error e
        | .ok (newTag, st2) =>
          match applySlotsF fuel newTag (.tag n a sc ch) with
          | none => .error .fuelOut
          | some applied => .ok (applied, st2)
    else .ok (.tag n a sc ch, st)
termination_by fuel _ _ _ => (fuel, 1, 0)

end

/-- `_Rendering.render` (ssr.ts 924–938): expand and serialize. -/
def renderM (P : Collab) (env : List DefSpec) (fuel : Nat) (rootIdx : Nat)
    (attributes : Attrs) (theme : Theme) (st : PState) :
    Except PipeErr (String × PState) :=
  match elementToTagM P env fuel rootIdx attributes theme st with
  | .error e => .error e
  | .ok (dom, st2) => .ok (toText dom, st2)

/-- `SSR.renderElement` (ssr.ts 940–960): extend the session's dependency
map with `buildMap(element)` (object spread, later keys overriding), merge
props and attributes, and render. -/
def renderElementM (P : Collab) (env : List DefSpec) (fuel : Nat)
    (rootIdx : Nat) (props attributes : Attrs) (theme : Theme)
    (st : PState) : Except PipeErr (String × PState) :=
  match buildMapF env fuel rootIdx [] with
  | none => .error .fuelOut
  | some m =>
    let st1 :=
      { st with
          session :=
            { st.session with
                elementMap := spreadMergeL st.session.elementMap m } }
    renderM P env fuel rootIdx (spreadMergeL props attributes) theme st1

/-! #### Cache-free reference pipeline (proof infrastructure)

The same pipeline with each stand-in instance's cache kept locally: every
instance starts from an empty innermost cache, which is exactly what a
fresh `WeakMap` key sees in the global cache.  The correspondence lemma
below shows the cached pipeline projects onto this one whenever the
instance allocator is fresh for the global cache. -/

mutual

def elementToTagPure (P : Collab) (env : List DefSpec) :
    Nat → Nat → Attrs → Theme → SessionM → Except PipeErr (PTag × SessionM)
  | 0, _, _, _, _ => .error .fuelOut
  | fuel + 1, elemIdx, attribs, theme, sess =>
    match env[elemIdx]? with
    | none => .error .badRef
    | some d =>
      let tagName :=
        match d.is with
        | some s => s
        | none => "wclib-element" ++ toString sess.unnamedElements
      let sess1 :=
        match d.is with
        | some _ => sess
        | none => { sess with unnamedElements := sess.unnamedElements + 1 }
      match tryRenderTM [] attribs theme d.html with
      | .error e => .error e
      | .ok (text, tm1) =>
        let tags := P.parseHTML text
        let sp := splitAttributes d.config attribs
        match replacePure P env fuel tags theme sess1 with
        | .error e => .error e
        | .ok (children, sess2) =>
          match getCSSAppliedPure P d elemIdx tm1 tagName attribs theme children sess2 with
          | .error e => .error e
          | .ok (cssApplied, sess3) =>
            let instanceAttrs : Attrs := []
            .ok (.tag tagName
              (spreadMergeL (spreadMergeL sp.attributes sp.publicProps) instanceAttrs)
              false cssApplied, sess3)
termination_by fuel _ _ _ _ => (fuel, 0, 0)

def replacePure (P : Collab) (env : List DefSpec) :
    Nat → List PTag → Theme → SessionM → Except PipeErr (List PTag × SessionM)
  | _, [], _, sess => .ok ([], sess)
  | fuel, t :: ts, theme, sess =>
    match replaceOnePure P env fuel t theme sess with
    | .error e => .error e
    | .ok (t2, sess2) =>
      match replacePure P env fuel ts theme sess2 with
      | .error e => .error e
      | .ok (ts2, sess3) => .ok (t2 :: ts2, sess3)
termination_by fuel ts _ _ => (fuel, 2, ts.length + 1)

def replaceOnePure (P : Collab) (env : List DefSpec) :
    Nat → PTag → Theme → SessionM → Except PipeErr (PTag × SessionM)
  | _, .text c, _, sess => .ok (.text c, sess)
  | fuel, .tag n a sc ch, theme, sess =>
    if n.contains '-' then
      match kvGet sess.elementMap n with
      | none => .ok (.tag n a sc ch, sess)
      | some elemIdx =>
        match elementToTagPure P env fuel elemIdx a theme sess with
        | .error e => .error e
        | .ok (newTag, sess2) =>
          match applySlotsF fuel newTag (.tag n a sc ch) with
          | none => .error .fuelOut
          | some applied => .ok (applied, sess2)
    else .ok (.tag n a sc ch, sess)
termination_by fuel _ _ _ => (fuel, 1, 0)

end

def renderPure (P : Collab) (env : List DefSpec) (fuel : Nat)
    (rootIdx : Nat) (attributes : Attrs) (theme : Theme) (sess : SessionM) :
    Except PipeErr (String × SessionM) :=
  match elementToTagPure P env fuel rootIdx attributes theme sess with
  | .error e => .error e
  | .ok (dom, sess2) => .ok (toText dom, sess2)

/-! ### Harness for claim C5: N successive expansions of one definition

`cssExpandOnce` is the CSS phase of one `elementToTag` expansion of the
definition: a fresh stand-in instance identity is drawn (as `new
wrappedClass()` does) and `getCSSApplied` runs.  `cssExpandN` chains `N`
such expansions in one session, collecting each expansion's output. -/

def cssExpandOnce (P : Collab) (d : DefSpec) (elemIdx : Nat)
    (tagName : String) (props : Attrs) (theme : Theme)
    (children : List PTag) (st : PState) :
    Except PipeErr (List PTag × PState) :=
  let cid := st.nextId
  getCSSAppliedM P d elemIdx cid tagName props theme children
    { st with nextId := cid + 1 }

def cssExpandN (P : Collab) (d : DefSpec) (elemIdx : Nat)
    (tagName : String) (props : Attrs) (theme : Theme)
    (children : List PTag) :
    Nat → PState → Except PipeErr (List (List PTag) × PState)
  | 0, st => .ok ([], st)
  | n + 1, st =>
    match cssExpandOnce P d elemIdx tagName props theme children st with
    | .error e => .error e
    | .ok (out, st2) =>
      match cssExpandN P d elemIdx tagName props theme children n st2 with
      | .error e => .error e
      | .ok (outs, st3) => .ok (out :: outs, st3)

/-- The definition's parsed CSS groups, computed once against an empty
per-instance cache — what every expansion with a fresh instance sees. -/
def cssGroupsPure (P : Collab) (props : Attrs) (theme : Theme)
    (css : List MTemplateFn) : Except PipeErr (List (Nat × List PTag)) :=
  match parseElementCSSTM P props theme [] css with
  | .error e => .error e
  | .ok (groups, _) => .ok groups

/-- The unique identifier `_generateUniqueID` hands to the `k`-th
expansion of a definition in a fresh session. -/
def uidOf (tagName : String) (k : Nat) : String :=
  "css-" ++ tagName ++ "-" ++ toString k

/-- What claim C5 predicts for the `k`-th expansion's output: the
element-global sheets (prefixed with the fixed component id) exactly when
the expansion is the definition's first one in the session, the unique
sheets prefixed with `css-<tagName>-<k>` always, then the class-stamped
children. -/
def cssOutSpecGen (P : Collab) (gs : List (Nat × List PTag))
    (tagName : String) (children : List PTag) (k : Nat) (isFirst : Bool) :
    Except PipeErr (List PTag) :=
  match addCSSPrefixesM P (uidOf tagName k) ("css-" ++ tagName) gs with
  | .error e => .error e
  | .ok prefixed =>
    .ok ((if isFirst then
          flattenGroups (prefixed.filter (fun g => elementGlobalCO g.1))
        else []) ++
      flattenGroups (prefixed.filter (fun g => !(elementGlobalCO g.1))) ++
      children.map (prefixHTMLTag (uidOf tagName k) ("css-" ++ tagName)))

def exceptMapM {α β : Type} (f : α → Except PipeErr β) :
    List α → Except PipeErr (List β)
  | [] => .ok []
  | x :: xs =>
    match f x with
    | .error e => .error e
    | .ok y =>
      match exceptMapM f xs with
      | .error e => .error e
      | .ok ys => .ok (y :: ys)

/-! ### Concrete inputs for the per-claim evaluations and witnesses -/

/-- The claim C4 receiver tree `<div><slot name="a"></slot><slot></slot></div>`
wrapped in its component element. -/
def slotNamedA : PTag := .tag "slot" [("name", some "a")] false []

def slotUnnamed : PTag := .tag "slot" [] false []

def divReceiver : PTag := .tag "div" [] false [slotNamedA, slotUnnamed]

def elementC4 : PTag := .tag "x-test" [] false [divReceiver]

/-- The claim C4 caller content `<span slot="a">X</span><b>Y</b>` as the
light DOM of the component. -/
def spanSlotA : PTag := .tag "span" [("slot", some "a")] false [.text "X"]

def boldY : PTag := .tag "b" [] false [.text "Y"]

def lightC4 : PTag := .tag "x-test" [] false [spanSlotA, boldY]

/-- The tree the claim says slot resolution produces:
`<div><slot name="a"><span slot="a">X</span></slot><slot><b>Y</b></slot></div>`. -/
def claimedC4 : PTag :=
  .tag "x-test" [] false
    [.tag "div" [] false
      [.tag "slot" [("name", some "a")] false [spanSlotA],
        .tag "slot" [] false [boldY]]]

/-- Duplicate-slot input for the C9 witness: two spans both declaring
`slot="a"`. -/
def spanSlotA2 : PTag := .tag "span" [("slot", some "a")] false [.text "Z"]

/-- Toy collaborator set used by the witnesses: the parser wraps any text
in a single `<style>` tag, the CSS parser reads the whole text as one
selector, the printer joins selectors and payloads. -/
def collabW : Collab :=
  { parseHTML := fun s => [.tag "style" [] false [.text s]],
    cssParse := fun s => .ok [{ selectors := some [s], rest := "body" }],
    cssStringify := fun rules =>
      String.intercalate ";"
        (rules.map (fun r =>
          String.intercalate "," (r.selectors.getD []) ++ ":" ++ r.rest)) }

/-- A THEME-masked (hence element-global) CSS template rendering `G`. -/
def tplGlobalW : MTemplateFn :=
  { id := 1, changeOn := CT_THEME, template := some (fun _ _ _ => .ok (.str "G")) }

/-- A PROP-masked (hence unique) CSS template rendering `U`. -/
def tplUniqueW : MTemplateFn :=
  { id := 2, changeOn := CT_PROP, template := some (fun _ _ _ => .ok (.str "U")) }

/-- C5 witness definition: one global and one unique stylesheet. -/
def defC5 : DefSpec :=
  { is := some "my-el", dependencies := [], html := none,
    css := [tplGlobalW, tplUniqueW], config := none }

/-- C8 witness definition: an HTML template and a unique stylesheet. -/
def tplHtmlW : MTemplateFn :=
  { id := 10, changeOn := CT_PROP, template := some (fun _ _ _ => .ok (.str "hello")) }

def envC8 : List DefSpec :=
  [ { is := some "x-a", dependencies := [], html := some tplHtmlW,
      css := [tplUniqueW], config := none } ]

/-- A non-empty global templater cache a second render might start from
(the C8 witness): some earlier component identity `0` holds a cached
render. -/
def gcPre : GC := [((0, 0), [(10, .str "stale")])]

/-- C10 witness props configuration: `reflect` names only `r`. -/
def cfgC10 : PropsConfig := { reflect := some ["r"], priv := none }

/-- Key list of a JS-object association list. -/
def kvKeys {κ α : Type} (m : List (κ × α)) : List κ := m.map (fun p => p.1)

/-- "The props config declares neither `reflect` nor `priv`": no config at
all, or a config with both fields absent. -/
def declaresNeither : Option PropsConfig → Prop
  | none => True
  | some cfg => cfg.reflect = none ∧ cfg.priv = none

/-- The `slot` attribute key under which `_findSlottables` would classify
a node: `none` for text nodes and tags without a `slot` attribute. -/
def slotKeyOf : PTag → Option String
  | .tag _ a _ _ => if attrHas a "slot" then some (jsVal (attrRead a "slot")) else none
  | .text _ => none

/-- The first node in a top-level forest carrying the given `slot`
attribute key — the one `_findSlottables` keeps for that name. -/
def firstSlotFor (k : String) : List PTag → Option PTag
  | [] => none
  | t :: ts => if slotKeyOf t = some k then some t else firstSlotFor k ts

/-- Lockstep relation between a cached-pipeline result and its cache-free
mirror, relative to the input's instance allocator `n0` and global cache
`gc0`: both branches fail with the same error, or both succeed with the
same value and the same session, the output cache staying fresh for the
output allocator, the allocator only growing, and every cache key below
`n0` left untouched. -/
def LockRel {α : Type} (n0 : Nat) (gc0 : GC)
    (mr : Except PipeErr (α × PState))
    (pr : Except PipeErr (α × SessionM)) : Prop :=
  match mr, pr with
  | .error e, .error e2 => e = e2
  | .ok (x, st2), .ok (x2, sess2) =>
    x = x2 ∧ st2.session = sess2 ∧ FreshGC st2.gc st2.nextId
      ∧ n0 ≤ st2.nextId
      ∧ (∀ key : Nat × Nat, key.2 < n0 → kvGet st2.gc key = kvGet gc0 key)
  | _, _ => False

/-- `elementToTag` at this fuel is in lockstep with its cache-free mirror
from every fresh state. -/
def ElemLock (P : Collab) (env : List DefSpec) (fuel : Nat) : Prop :=
  ∀ (elemIdx : Nat) (attribs : Attrs) (theme : Theme) (sess : SessionM)
    (gc : GC) (n : Nat), FreshGC gc n →
    LockRel n gc
      (elementToTagM P env fuel elemIdx attribs theme ⟨sess, gc, n⟩)
      (elementToTagPure P env fuel elemIdx attribs theme sess)

/-- One `_mapTag` walk step at this fuel is in lockstep with its
cache-free mirror from every fresh state. -/
def OneLock (P : Collab) (env : List DefSpec) (fuel : Nat) : Prop :=
  ∀ (t : PTag) (theme : Theme) (sess : SessionM) (gc : GC) (n : Nat),
    FreshGC gc n →
    LockRel n gc
      (replaceOneM P env fuel t theme ⟨sess, gc, n⟩)
      (replaceOnePure P env fuel t theme sess)

/-- `_Replacement.replace` at this fuel is in lockstep with its cache-free
mirror from every fresh state. -/
def RepLock (P : Collab) (env : List DefSpec) (fuel : Nat) : Prop :=
  ∀ (tags : List PTag) (theme : Theme) (sess : SessionM) (gc : GC)
    (n : Nat), FreshGC gc n →
    LockRel n gc
      (replaceM P env fuel tags theme ⟨sess, gc, n⟩)
      (replacePure P env fuel tags theme sess)

/-! ======================================================================
Theorems.
====================================================================== -/

/-! ### Association-list basics -/

theorem kvHas_eq_isSome {κ α : Type} [DecidableEq κ] (m : List (κ × α)) (k : κ) :
    kvHas m k = (kvGet m k).isSome := by
  induction m with
  | nil => rfl
  | cons p ps ih =>
    by_cases h : p.1 = k
    · simp [kvHas, kvGet, List.any_cons, h]
    · simpa [kvHas, kvGet, List.any_cons, h] using ih

theorem kvGet_map_replace {κ α : Type} [DecidableEq κ] (m : List (κ × α))
    (k k' : κ) (v : α) :
    kvGet (m.map (fun p => if p.1 = k then (k, v) else p)) k'
      = if k' = k then (if m.any (fun p => p.1 = k) then some v else none)
        else kvGet m k' := by
  induction m with
  | nil => by_cases hk : k' = k <;> simp [kvGet, hk]
  | cons p ps ih =>
    by_cases hp : p.1 = k
    · by_cases hk : k' = k
      · subst hk
        simp [kvGet, hp, List.any_cons]
      · have hkk : ¬ (k = k') := fun hh => hk hh.symm
        have hpk : ¬ (p.1 = k') := by rw [hp]; exact hkk
        simpa [kvGet, hp, hpk, hkk, hk] using ih
    · by_cases hk : k' = k
      · subst hk
        simp only [List.map_cons, List.any_cons, decide_eq_false hp,
          Bool.false_or]
        simp only [eq_self_iff_true, if_true] at ih
        simp [kvGet, hp, ih]
      · by_cases hp' : p.1 = k'
        · simp [kvGet, hp, hp', hk]
        · simpa [kvGet, hp, hp', hk] using ih

theorem kvGet_append_single {κ α : Type} [DecidableEq κ] (m : List (κ × α))
    (k k' : κ) (v : α) :
    kvGet (m ++ [(k, v)]) k'
      = if (kvGet m k').isSome then kvGet m k'
        else (if k' = k then some v else none) := by
  induction m with
  | nil =>
    by_cases hk : k' = k
    · simp [kvGet, hk]
    · have hkk : ¬ (k = k') := fun hh => hk hh.symm
      simp [kvGet, hk, hkk]
  | cons p ps ih =>
    by_cases hp : p.1 = k'
    · simp [kvGet, hp]
    · simpa [kvGet, hp] using ih

theorem kvGet_eq_none_of_not_any {κ α : Type} [DecidableEq κ]
    (m : List (κ × α)) (k : κ) (hA : ¬ m.any (fun p => p.1 = k)) :
    kvGet m k = none := by
  induction m with
  | nil => rfl
  | cons p ps ih =>
    have hp : ¬ (p.1 = k) := fun hh => hA (by simp [List.any_cons, hh])
    have hA' : ¬ ps.any (fun p => p.1 = k) := by
      intro hh
      exact hA (by simp [List.any_cons, hh])
    simpa [kvGet, hp] using ih hA'

theorem kvGet_kvSet {κ α : Type} [DecidableEq κ] (m : List (κ × α))
    (k k' : κ) (v : α) :
    kvGet (kvSet m k v) k' = if k' = k then some v else kvGet m k' := by
  unfold kvSet
  by_cases hA : m.any (fun p => p.1 = k)
  · rw [if_pos hA, kvGet_map_replace]
    by_cases hk : k' = k <;> simp [hk, hA]
  · rw [if_neg hA, kvGet_append_single]
    by_cases hk : k' = k
    · subst hk
      rw [kvGet_eq_none_of_not_any m k' hA]
      simp
    · rcases hO : kvGet m k' with _ | w <;> simp [hO, hk]

theorem kvKeys_kvSet {κ α : Type} [DecidableEq κ] (m : List (κ × α))
    (k : κ) (v : α) :
    kvKeys (kvSet m k v) = if kvHas m k then kvKeys m else kvKeys m ++ [k] := by
  unfold kvSet kvHas
  by_cases hA : m.any (fun p => p.1 = k)
  · simp only [hA, if_true, kvKeys, List.map_map]
    congr 1
    funext p
    by_cases hp : p.1 = k <;> simp [hp]
  · simp [hA, kvKeys]

/-! ### Claim C2: the change-gating of the memoizer -/

/-- **C2.** For a `TemplateFn` whose change mask does not include `NEVER`,
with a fixed (templater, component) pair and a template function that
returns normally: the render call returns the previously cached result
with `changed = false`, leaving the cache untouched and not invoking the
template, exactly when a cached entry exists for the template and the
incoming change reason shares no bits with the mask; in every other case
the template function is invoked, the cache entry is overwritten with the
new result and `changed = true` is returned. -/
theorem render_gating_iff (fn : MTemplateFn) (props : Attrs) (theme : Theme)
    (changeType : Nat) (tm : TMap)
    (t : Attrs → Theme → Nat → Except RErr Rendered) (r : Rendered)
    (hN : fn.changeOn &&& CT_NEVER = 0) (ht : fn.template = some t)
    (hr : t props theme changeType = .ok r) :
    (∀ v, tmGet tm fn.id = some v → fn.changeOn &&& changeType = 0 →
      renderWithTemplater fn props theme changeType tm
        = (.ok (false, v), tm, false))
    ∧ ((tmGet tm fn.id = none ∨ fn.changeOn &&& changeType ≠ 0) →
      renderWithTemplater fn props theme changeType tm
        = (.ok (true, r), tmSet tm fn.id r, true)) := by
  constructor
  · intro v hv h0
    unfold renderWithTemplater
    rw [if_neg (by simp [hN])]
    have hHas : tmHas tm fn.id = true := by
      rw [tmHas, kvHas_eq_isSome]
      rw [tmGet] at hv
      simp [hv]
    rw [if_neg (by simp [h0, hHas])]
    simp [hv]
  · intro hOr
    unfold renderWithTemplater
    rw [if_neg (by simp [hN])]
    have hCond : (decide (fn.changeOn &&& changeType ≠ 0) || !(tmHas tm fn.id)) = true := by
      rcases hOr with h | h
      · have : tmHas tm fn.id = false := by
          rw [tmHas, kvHas_eq_isSome]
          rw [tmGet] at h
          simp [h]
        simp [this]
      · simp [h]
    rw [if_pos (by simpa using hCond)]
    rw [ht]
    simp [hr]

/-- Witness for C2 at a concrete input: `fnPropConst` with an empty cache
recomputes; with a cached entry and a THEME change reason it returns the
cached value unchanged. -/
theorem render_gating_iff_witness :
    renderWithTemplater fnPropConst [] [] CT_THEME [(3, .str "old")]
      = (.ok (false, .str "old"), [(3, .str "old")], false)
    ∧ renderWithTemplater fnPropConst [] [] CT_PROP [(3, .str "old")]
      = (.ok (true, .str "out"), tmSet [(3, .str "old")] 3 (.str "out"), true) := by
  constructor
  · exact (render_gating_iff fnPropConst [] [] CT_THEME [(3, .str "old")]
      (fun _ _ _ => .ok (.str "out")) (.str "out") rfl rfl rfl).1
      (.str "old") rfl rfl
  · exact (render_gating_iff fnPropConst [] [] CT_PROP [(3, .str "old")]
      (fun _ _ _ => .ok (.str "out")) (.str "out") rfl rfl rfl).2
      (Or.inr (by decide))

/-! ### Claim C3: the NEVER mask does not in fact compute at most once -/

/-- **C3 (failing input).** A NEVER-masked template whose function returns
the falsy value `''`: the first render caches `''`, but the NEVER branch
guards the cache with a truthiness test (`if (cached)`), so the second
render call invokes the template function again (ghost flag `true`) and
returns `changed = true` again — contradicting "invoked at most once" and
"every later call returns changed=false". -/
theorem never_mask_recomputes_on_falsy :
    renderWithTemplater fnNeverEmpty [] [] CT_PROP []
      = (.ok (true, .str ""), [(0, .str "")], true)
    ∧ renderWithTemplater fnNeverEmpty [] [] CT_PROP [(0, .str "")]
      = (.ok (true, .str ""), [(0, .str "")], true) := by
  exact ⟨rfl, rfl⟩

/-! ### Claim C6: a throwing template leaves the cache untouched -/

/-- **C6.** Whenever a render call propagates an exception (the result is
`.error`), the cache for the (templater, component, template) triple is
exactly what it was before the call. -/
theorem throwing_render_preserves_cache (fn : MTemplateFn) (props : Attrs)
    (theme : Theme) (changeType : Nat) (tm : TMap) (e : RErr)
    (h : (renderWithTemplater fn props theme changeType tm).1 = .error e) :
    (renderWithTemplater fn props theme changeType tm).2.1 = tm := by
  revert h
  unfold renderWithTemplater
  repeat' split
  all_goals intro h
  all_goals first
    | rfl
    | simp_all

/-- C6 witness: a template that always throws, invoked on an empty cache,
propagates the error and leaves the cache empty. -/
theorem throwing_render_preserves_cache_witness :
    (renderWithTemplater fnThrowing [] [] CT_PROP []).1 = .error (.user 7)
    ∧ (renderWithTemplater fnThrowing [] [] CT_PROP []).2.1 = [] := by
  exact ⟨rfl, throwing_render_preserves_cache fnThrowing [] [] CT_PROP []
    (.user 7) rfl⟩

/-! ### Claim C10: splitAttributes under a reflect/priv configuration -/

theorem kvGet_mem {κ α : Type} [DecidableEq κ] (m : List (κ × α)) (k : κ)
    (v : α) (h : kvGet m k = some v) : (k, v) ∈ m := by
  induction m with
  | nil => simp [kvGet] at h
  | cons p ps ih =>
    by_cases hp : p.1 = k
    · rw [kvGet, if_pos hp] at h
      have : p = (k, v) := by
        rcases p with ⟨a, b⟩
        simp only at hp
        simp only [Option.some.injEq] at h
        simp [hp, h]
      simp [this]
    · rw [kvGet, if_neg hp] at h
      exact List.mem_cons_of_mem _ (ih h)

theorem kvGet_isSome_kvSet {κ α : Type} [DecidableEq κ] (m : List (κ × α))
    (k k' : κ) (v : α) (h : (kvGet m k').isSome) :
    (kvGet (kvSet m k v) k').isSome := by
  rw [kvGet_kvSet]
  by_cases hk : k' = k <;> simp [hk, h]

/-- Every value stored in the `attribs` object built by the loop is
`undefined`, and once present a key stays present. -/
theorem splitFold_invariant (reflect priv : List String) :
    ∀ (attrs : Attrs) (acc : SplitAttrs),
      (∀ q ∈ acc.attributes, q.2 = none) →
      (∀ q ∈ (attrs.foldl (splitStep reflect priv) acc).attributes, q.2 = none)
      ∧ (∀ k, (kvGet acc.attributes k).isSome →
          (kvGet ((attrs.foldl (splitStep reflect priv) acc).attributes) k).isSome)
      ∧ (∀ k v, (k, v) ∈ attrs → k ∉ reflect → k ∉ priv →
          (kvGet ((attrs.foldl (splitStep reflect priv) acc).attributes) k).isSome) := by
  intro attrs
  induction attrs with
  | nil =>
    intro acc hAll
    refine ⟨hAll, fun k h => h, ?_⟩
    intro k v hkv
    simp at hkv
  | cons p ps ih =>
    intro acc hAll
    have hStepAll : ∀ q ∈ (splitStep reflect priv acc p).attributes, q.2 = none := by
      intro q hq
      unfold splitStep at hq
      by_cases h1 : p.1 ∈ reflect
      · rw [if_pos h1] at hq
        exact hAll q hq
      · rw [if_neg h1] at hq
        by_cases h2 : p.1 ∈ priv
        · rw [if_pos h2] at hq
          exact hAll q hq
        · rw [if_neg h2] at hq
          simp only at hq
          unfold kvSet at hq
          have hv : (kvGet acc.attributes p.1).getD none = none := by
            rcases hO : kvGet acc.attributes p.1 with _ | w
            · rfl
            · have := hAll _ (kvGet_mem _ _ _ hO)
              simp at this
              simp [this]
          rw [hv] at hq
          by_cases hA : acc.attributes.any (fun q => q.1 = p.1)
          · rw [if_pos hA] at hq
            rcases List.mem_map.mp hq with ⟨q0, hq0, hq0e⟩
            by_cases hqk : q0.1 = p.1
            · rw [if_pos hqk] at hq0e
              rw [← hq0e]
            · rw [if_neg hqk] at hq0e
              rw [← hq0e]
              exact hAll q0 hq0
          · rw [if_neg hA] at hq
            rcases List.mem_append.mp hq with hq1 | hq1
            · exact hAll q hq1
            · simp at hq1
              simp [hq1]
    have hMain := ih (splitStep reflect priv acc p) hStepAll
    refine ⟨hMain.1, ?_, ?_⟩
    · intro k hk
      apply hMain.2.1
      unfold splitStep
      by_cases h1 : p.1 ∈ reflect
      · rw [if_pos h1]
        exact hk
      · rw [if_neg h1]
        by_cases h2 : p.1 ∈ priv
        · rw [if_pos h2]
          exact hk
        · rw [if_neg h2]
          exact kvGet_isSome_kvSet _ _ _ _ hk
    · intro k v hkv hkr hkp
      rcases List.mem_cons.mp hkv with hkv1 | hkv1
      · have hk1 : p.1 = k := by rw [← hkv1]
        apply hMain.2.1
        unfold splitStep
        rw [if_neg (by rw [hk1]; exact hkr), if_neg (by rw [hk1]; exact hkp)]
        simp only
        rw [hk1, kvGet_kvSet]
        simp
      · exact hMain.2.2 k v hkv1 hkr hkp

/-- **C10.** When the props configuration names at least one `reflect` or
`priv` property, every passed key not named in either list comes back in
the `attributes` part bound to `undefined` (`some none`: present, value
`undefined`); and the `attributes` part is the passed bag unchanged, for
every possible bag, exactly when the configuration declares neither
`reflect` nor `priv`. -/
theorem splitAttributes_unlisted_undefined (config : Option PropsConfig) :
    (∀ cfg, config = some cfg →
      cfg.reflect.getD [] ++ cfg.priv.getD [] ≠ [] →
      ∀ (attributes : Attrs) (k : String) (v : Option String),
        (k, v) ∈ attributes →
        k ∉ cfg.reflect.getD [] → k ∉ cfg.priv.getD [] →
        kvGet (splitAttributes config attributes).attributes k = some none)
    ∧ ((∀ attributes : Attrs,
        (splitAttributes config attributes).attributes = attributes)
      ↔ declaresNeither config) := by
  constructor
  · intro cfg hcfg hne attributes k v hkv hkr hkp
    subst hcfg
    have hguard : (cfg.reflect.isNone && cfg.priv.isNone) = false := by
      rcases hR : cfg.reflect with _ | lr
      · rcases hP : cfg.priv with _ | lp
        · exfalso
          apply hne
          simp [hR, hP]
        · simp [hR, hP]
      · simp [hR]
    simp only [splitAttributes, hguard, Bool.false_eq_true, if_false]
    have hInv := splitFold_invariant (cfg.reflect.getD []) (cfg.priv.getD [])
      attributes { attributes := [], publicProps := [], privateProps := [] }
      (by intro q hq; simp at hq)
    have hSome := hInv.2.2 k v hkv hkr hkp
    rcases hO : kvGet ((attributes.foldl
        (splitStep (cfg.reflect.getD []) (cfg.priv.getD []))
        { attributes := [], publicProps := [], privateProps := [] }).attributes) k
      with _ | w
    · rw [hO] at hSome
      simp at hSome
    · have := hInv.1 _ (kvGet_mem _ _ _ hO)
      simp only at this
      rw [this]
  · constructor
    · intro h
      rcases hC : config with _ | cfg
      · trivial
      · subst hC
        unfold declaresNeither
        by_contra hd
        have hguard : (cfg.reflect.isNone && cfg.priv.isNone) = false := by
          rcases hR : cfg.reflect with _ | lr
          · rcases hP : cfg.priv with _ | lp
            · exact absurd ⟨hR, hP⟩ hd
            · simp [hP]
          · simp [hR]
        have h1 := h [("k", some "x")]
        simp only [splitAttributes, hguard, Bool.false_eq_true, if_false,
          List.foldl_cons, List.foldl_nil] at h1
        unfold splitStep at h1
        by_cases hr : ("k", some "x").1 ∈ cfg.reflect.getD []
        · rw [if_pos hr] at h1
          simp at h1
        · rw [if_neg hr] at h1
          by_cases hp : ("k", some "x").1 ∈ cfg.priv.getD []
          · rw [if_pos hp] at h1
            simp at h1
          · rw [if_neg hp] at h1
            simp [kvSet, kvGet] at h1
    · intro h attributes
      rcases hC : config with _ | cfg
      · rfl
      · subst hC
        unfold declaresNeither at h
        simp [splitAttributes, h.1, h.2]

/-- C10 witness: with `reflect = {r}` declared and the single passed
attribute `a="1"`, the returned attribute map binds `a` to `undefined`. -/
theorem splitAttributes_unlisted_undefined_witness :
    kvGet (splitAttributes (some cfgC10) [("a", some "1")]).attributes "a"
      = some none :=
  (splitAttributes_unlisted_undefined (some cfgC10)).1 cfgC10 rfl
    (by decide) [("a", some "1")] "a" (some "1") (by decide) (by decide)
    (by decide)

/-! ### Claim C7: duplicate tag names in the dependency graph

`map[element.is] = element` is an unconditional assignment, so when two
distinct reachable definitions declare the same tag name, the one
registered *last* in the recursive visit order ends up in the map — not
the first, as the claim states. -/

unseal buildMapF buildDepsF in
/-- **C7 (counterexample).** In `envDup` the root's two distinct
dependencies (indices 1 and 2) both declare the tag name `x`; `buildMap`
binds `x` to index 2 — the definition registered last — so it does not
bind it to the first-registered definition (index 1). -/
theorem buildMap_first_wins_counterexample :
    buildMapF envDup 3 0 [] = some [("r", 0), ("x", 2)]
    ∧ kvGet [(("r" : String), (0 : Nat)), ("x", 2)] "x" = some 2
    ∧ kvGet [(("r" : String), (0 : Nat)), ("x", 2)] "x" ≠ some 1 :=
  ⟨rfl, rfl, by decide⟩

/-- `buildMapF` is the fold of JS-object assignments over the registration
sequence of the traversal. -/
theorem buildMap_eq_fold_regSeq (env : List DefSpec) : ∀ fuel : Nat,
    (∀ i map, buildMapF env fuel i map
      = (regSeqF env fuel i).map
          (fun s => s.foldl (fun mp p => kvSet mp p.1 p.2) map))
    ∧ (∀ deps map, buildDepsF env fuel deps map
      = (regSeqDepsF env fuel deps).map
          (fun s => s.foldl (fun mp p => kvSet mp p.1 p.2) map)) := by
  intro fuel
  induction fuel with
  | zero =>
    constructor
    · intro i map
      simp [buildMapF, regSeqF]
    · intro deps map
      induction deps with
      | nil => simp [buildDepsF, regSeqDepsF]
      | cons dep rest ihrest =>
        have h1 : buildMapF env 0 dep map = none := by simp [buildMapF]
        have h2 : regSeqF env 0 dep = none := by simp [regSeqF]
        simp only [buildDepsF, regSeqDepsF, h1, h2, Option.map_none']
  | succ f ihf =>
    have hP : ∀ i map, buildMapF env (f + 1) i map
        = (regSeqF env (f + 1) i).map
            (fun s => s.foldl (fun mp p => kvSet mp p.1 p.2) map) := by
      intro i map
      rcases hE : env[i]? with _ | d
      · simp [buildMapF, regSeqF, hE]
      · simp only [buildMapF, regSeqF, hE]
        rw [ihf.2]
        rcases hS : regSeqDepsF env f d.dependencies with _ | s
        · simp
        · rcases hIs : d.is with _ | nm <;>
            simp [hIs, List.foldl_append]
    refine ⟨hP, ?_⟩
    intro deps
    induction deps with
    | nil =>
      intro map
      simp [buildDepsF, regSeqDepsF]
    | cons dep rest ihrest =>
      intro map
      simp only [buildDepsF, regSeqDepsF]
      rw [hP]
      rcases hS1 : regSeqF env (f + 1) dep with _ | s1
      · simp
      · simp only [Option.map_some']
        rw [ihrest]
        rcases hS2 : regSeqDepsF env (f + 1) rest with _ | s2
        · simp
        · simp [List.foldl_append]

/-- The value a key holds after folding JS-object assignments is the last
value registered for it, falling back to its prior binding. -/
theorem kvGet_foldl_kvSet {α : Type} :
    ∀ (s : List (String × α)) (map : List (String × α)) (k : String),
      kvGet (s.foldl (fun mp p => kvSet mp p.1 p.2) map) k
        = s.foldl (fun acc p => if p.1 = k then some p.2 else acc) (kvGet map k) := by
  intro s
  induction s with
  | nil => intro map k; rfl
  | cons p s' ih =>
    intro map k
    simp only [List.foldl_cons]
    rw [ih, kvGet_kvSet]
    by_cases h : p.1 = k
    · have h' : k = p.1 := h.symm
      rw [if_pos h', if_pos h]
    · have h' : ¬ (k = p.1) := fun hh => h hh.symm
      rw [if_neg h', if_neg h]

/-- **C7 (amended).** Whenever `buildMap` returns, the map binds every tag
name to the definition registered *last* for it in the recursive visit
order (last registration wins); in particular, of two distinct reachable
definitions sharing one tag name the later-visited one is kept. -/
theorem buildMap_last_registration_wins (env : List DefSpec)
    (fuel root : Nat) (m : DepMap) (s : List (String × Nat))
    (hm : buildMapF env fuel root [] = some m)
    (hs : regSeqF env fuel root = some s) :
    ∀ k, kvGet m k = lastRegOf s k := by
  intro k
  have h1 := (buildMap_eq_fold_regSeq env fuel).1 root []
  rw [hm, hs] at h1
  simp only [Option.map_some', Option.some.injEq] at h1
  rw [h1, kvGet_foldl_kvSet]
  rfl

/-! ### Claim C1: termination and coverage of `buildMap` -/

theorem kvHas_iff_mem_keys {κ α : Type} [DecidableEq κ] (m : List (κ × α))
    (k : κ) : kvHas m k = true ↔ k ∈ kvKeys m := by
  simp [kvHas, kvKeys, List.any_eq_true, List.mem_map]

theorem mem_keys_kvSet_self {κ α : Type} [DecidableEq κ] (m : List (κ × α))
    (k : κ) (v : α) : k ∈ kvKeys (kvSet m k v) := by
  rw [kvKeys_kvSet]
  by_cases h : kvHas m k
  · rw [if_pos h]
    exact (kvHas_iff_mem_keys m k).mp h
  · rw [if_neg h]
    simp

theorem mem_keys_kvSet_mono {κ α : Type} [DecidableEq κ] (m : List (κ × α))
    (k x : κ) (v : α) (h : x ∈ kvKeys m) : x ∈ kvKeys (kvSet m k v) := by
  rw [kvKeys_kvSet]
  by_cases hh : kvHas m k
  · rw [if_pos hh]
    exact h
  · rw [if_neg hh]
    exact List.mem_append_left _ h

theorem nodup_keys_kvSet {κ α : Type} [DecidableEq κ] (m : List (κ × α))
    (k : κ) (v : α) (h : (kvKeys m).Nodup) : (kvKeys (kvSet m k v)).Nodup := by
  rw [kvKeys_kvSet]
  by_cases hh : kvHas m k
  · rw [if_pos hh]
    exact h
  · rw [if_neg hh]
    have hk : k ∉ kvKeys m := fun hmem =>
      hh ((kvHas_iff_mem_keys m k).mpr hmem)
    simp [List.nodup_append, h, hk]

/-- **C1 (counterexample).** On the cyclic dependency graph A→B→A there is
no recursion depth at which `buildMap(A)` returns: the traversal has no
visited set, so it does not terminate. -/
theorem buildMap_cycle_diverges :
    ¬ ∃ fuel m, buildMapF envCyc fuel 0 [] = some m := by
  have hAux : ∀ fuel : Nat, ∀ map : DepMap,
      buildMapF envCyc fuel 0 map = none
      ∧ buildMapF envCyc fuel 1 map = none := by
    intro fuel
    induction fuel with
    | zero =>
      intro map
      constructor <;> simp [buildMapF]
    | succ f ih =>
      intro map
      constructor
      · have h1 : envCyc[(0 : Nat)]? = some
            { is := some "a", dependencies := [1], html := none, css := [],
              config := none } := rfl
        simp only [buildMapF, h1]
        have h2 := (ih (kvSet map "a" 0)).2
        simp [buildDepsF, h2]
      · have h1 : envCyc[(1 : Nat)]? = some
            { is := some "b", dependencies := [0], html := none, css := [],
              config := none } := rfl
        simp only [buildMapF, h1]
        have h2 := (ih (kvSet map "b" 1)).1
        simp [buildDepsF, h2]
  rintro ⟨fuel, m, h⟩
  rw [(hAux fuel []).1] at h
  exact Option.noConfusion h

/-- The workhorse for the amended C1: on a graph with a topological
ranking, `buildMap` returns given fuel above the start's rank; the
traversal only grows the key set, keeps it duplicate-free, and registers
the tag name of its own definition and of every definition reachable
through the dependencies. -/
theorem buildMap_rank_lemma (env : List DefSpec) (rank : Nat → Nat)
    (hrank : ∀ i d, env[i]? = some d → ∀ j ∈ d.dependencies, rank j < rank i) :
    ∀ fuel : Nat,
    (∀ i map, rank i < fuel → ∃ m, buildMapF env fuel i map = some m
      ∧ (∀ x, x ∈ kvKeys map → x ∈ kvKeys m)
      ∧ ((kvKeys map).Nodup → (kvKeys m).Nodup)
      ∧ (∀ k d s, Reaches env i k → env[k]? = some d → d.is = some s →
          s ∈ kvKeys m))
    ∧ (∀ deps map, (∀ j ∈ deps, rank j < fuel) →
      ∃ m, buildDepsF env fuel deps map = some m
      ∧ (∀ x, x ∈ kvKeys map → x ∈ kvKeys m)
      ∧ ((kvKeys map).Nodup → (kvKeys m).Nodup)
      ∧ (∀ j k d s, j ∈ deps → Reaches env j k → env[k]? = some d →
          d.is = some s → s ∈ kvKeys m)) := by
  intro fuel
  induction fuel with
  | zero =>
    constructor
    · intro i map hi
      omega
    · intro deps map hd
      cases deps with
      | nil =>
        refine ⟨map, by simp [buildDepsF], fun x hx => hx, fun h => h, ?_⟩
        intro j k d s hj
        simp at hj
      | cons dep rest =>
        have := hd dep (List.mem_cons_self dep rest)
        omega
  | succ f ihf =>
    have hP : ∀ i map, rank i < f + 1 → ∃ m, buildMapF env (f + 1) i map = some m
        ∧ (∀ x, x ∈ kvKeys map → x ∈ kvKeys m)
        ∧ ((kvKeys map).Nodup → (kvKeys m).Nodup)
        ∧ (∀ k d s, Reaches env i k → env[k]? = some d → d.is = some s →
            s ∈ kvKeys m) := by
      intro i map hi
      rcases hE : env[i]? with _ | d
      · refine ⟨map, by simp [buildMapF, hE], fun x hx => hx, fun h => h, ?_⟩
        intro k d s hR hk his
        cases hR with
        | refl _ =>
          rw [hE] at hk
          exact Option.noConfusion hk
        | step _ d' j _ hE' hj hR' =>
          rw [hE] at hE'
          exact Option.noConfusion hE'
      · have hdeps : ∀ j ∈ d.dependencies, rank j < f := by
          intro j hj
          have := hrank i d hE j hj
          omega
        obtain ⟨m, hm, hmono, hnodup, hcover⟩ :=
          ihf.2 d.dependencies
            (match d.is with | some s => kvSet map s i | none => map) hdeps
        have hmono1 : ∀ x, x ∈ kvKeys map →
            x ∈ kvKeys (match d.is with
              | some s => kvSet map s i | none => map) := by
          intro x hx
          rcases d.is with _ | nm
          · exact hx
          · exact mem_keys_kvSet_mono map nm x i hx
        have hnodup1 : (kvKeys map).Nodup →
            (kvKeys (match d.is with
              | some s => kvSet map s i | none => map)).Nodup := by
          intro hx
          rcases d.is with _ | nm
          · exact hx
          · exact nodup_keys_kvSet map nm i hx
        refine ⟨m, ?_, fun x hx => hmono x (hmono1 x hx),
          fun h => hnodup (hnodup1 h), ?_⟩
        · simp only [buildMapF, hE]
          exact hm
        · intro k d' s hR hk his
          cases hR with
          | refl _ =>
            rw [hE] at hk
            injection hk with hdd
            subst hdd
            apply hmono
            rcases hIs : d.is with _ | nm
            · rw [hIs] at his
              exact Option.noConfusion his
            · rw [hIs] at his
              injection his with hss
              simp only [hIs]
              rw [← hss]
              exact mem_keys_kvSet_self map nm i
          | step _ d'' j _ hE'' hj hR' =>
            rw [hE] at hE''
            injection hE'' with hdd
            subst hdd
            exact hcover j k d' s hj hR' hk his
    refine ⟨hP, ?_⟩
    intro deps
    induction deps with
    | nil =>
      intro map hd
      refine ⟨map, by simp [buildDepsF], fun x hx => hx, fun h => h, ?_⟩
      intro j k d s hj
      simp at hj
    | cons dep rest ihrest =>
      intro map hd
      obtain ⟨m1, hm1, mono1, nd1, cover1⟩ :=
        hP dep map (hd dep (List.mem_cons_self dep rest))
      obtain ⟨m2, hm2, mono2, nd2, cover2⟩ :=
        ihrest m1 (fun j hj => hd j (List.mem_cons_of_mem dep hj))
      refine ⟨m2, ?_, fun x hx => mono2 x (mono1 x hx),
        fun h => nd2 (nd1 h), ?_⟩
      · simp only [buildDepsF, hm1]
        exact hm2
      · intro j k d s hj hR hk his
        rcases List.mem_cons.mp hj with hj1 | hj1
        · subst hj1
          exact mono2 s (cover1 k d s hR hk his)
        · exact cover2 j k d s hj1 hR hk his

/-- **C1 (amended).** For every dependency graph admitting a topological
ranking (equivalently: acyclic), `buildMap(root)` terminates, and the
returned map contains the tag name of each reachable named definition as
a key, each key exactly once (the key list is duplicate-free).  On cyclic
graphs such as A→B→A, `buildMap` does not terminate
(`buildMap_cycle_diverges`). -/
theorem buildMap_terminates_on_ranked (env : List DefSpec)
    (rank : Nat → Nat)
    (hrank : ∀ i d, env[i]? = some d → ∀ j ∈ d.dependencies, rank j < rank i)
    (root : Nat) :
    ∃ m, buildMapF env (rank root + 1) root [] = some m
      ∧ (kvKeys m).Nodup
      ∧ (∀ k d s, Reaches env root k → env[k]? = some d → d.is = some s →
          s ∈ kvKeys m) := by
  obtain ⟨m, hm, _, hnodup, hcover⟩ :=
    (buildMap_rank_lemma env rank hrank (rank root + 1)).1 root []
      (Nat.lt_succ_self _)
  exact ⟨m, hm, hnodup (by simp [kvKeys]), hcover⟩

/-- C1 witness: on the acyclic graph `envAcyc` (a→b) with the ranking
`rankAcyc`, `buildMap` terminates with the duplicate-free key set
containing both reachable tag names. -/
theorem buildMap_terminates_on_ranked_witness :
    ∃ m, buildMapF envAcyc (rankAcyc 0 + 1) 0 [] = some m
      ∧ (kvKeys m).Nodup
      ∧ (∀ k d s, Reaches envAcyc 0 k → envAcyc[k]? = some d →
          d.is = some s → s ∈ kvKeys m) := by
  apply buildMap_terminates_on_ranked envAcyc rankAcyc
  intro i d hd j hj
  match i, hd with
  | 0, hd =>
    have hA : (envAcyc[(0 : Nat)]?) = some ⟨some "a", [1], none, [], none⟩ := rfl
    rw [hA] at hd
    injection hd with hd
    subst hd
    have hj1 : j = 1 := by simpa using hj
    subst hj1
    decide
  | 1, hd =>
    have hB : (envAcyc[(1 : Nat)]?) = some ⟨some "b", [], none, [], none⟩ := rfl
    rw [hB] at hd
    injection hd with hd
    subst hd
    simp at hj
  | (n + 2), hd => simp [envAcyc] at hd

/-! ### Claim C9: duplicate slot attributes among the caller's content -/

/-- One walk step of `_findSlottables`: every root tag is classified by
the handler, which always stops the walk at it. -/
theorem walk_slottable_tag (f : Nat) (s : Slottables) (n : String)
    (a : Attrs) (sc : Bool) (ch : List PTag) :
    walkF slottableHandler (f + 1) s (.tag n a sc ch)
      = some ((slottableHandler s (.tag n a sc ch)).1, .tag n a sc ch) := by
  by_cases h : attrHas a "slot" <;>
    simp [walkF, slottableHandler, h]

/-- The named slottables found: first occurrence per key, earlier
accumulator entries keeping priority. -/
theorem findSlottables_named (f : Nat) :
    ∀ (roots : List PTag) (acc sl : Slottables),
      findSlottablesF (f + 1) roots acc = some sl →
      ∀ k, kvGet sl.named k
        = (match kvGet acc.named k with
            | some v => some v
            | none => firstSlotFor k roots) := by
  intro roots
  induction roots with
  | nil =>
    intro acc sl h k
    have : acc = sl := by simpa [findSlottablesF] using h
    subst this
    rcases hO : kvGet acc.named k with _ | v <;> simp [firstSlotFor, hO]
  | cons t ts ih =>
    intro acc sl h k
    cases t with
    | text c =>
      have hw : walkF slottableHandler (f + 1) acc (.text c)
          = some (acc, .text c) := by simp [walkF]
      simp only [findSlottablesF, hw] at h
      rw [ih acc sl h k]
      rcases hO : kvGet acc.named k with _ | v <;>
        simp [firstSlotFor, slotKeyOf, hO]
    | tag n a sc ch =>
      simp only [findSlottablesF, walk_slottable_tag] at h
      by_cases hS : attrHas a "slot"
      · have hstate : (slottableHandler acc (.tag n a sc ch)).1
            = { acc with named :=
                match kvGet acc.named (jsVal (attrRead a "slot")) with
                | some _ => acc.named
                | none => kvSet acc.named (jsVal (attrRead a "slot"))
                    (.tag n a sc ch) } := by
          simp [slottableHandler, hS]
        rw [hstate] at h
        have hkey : slotKeyOf (.tag n a sc ch)
            = some (jsVal (attrRead a "slot")) := by
          simp [slotKeyOf, hS]
        rcases hAcc : kvGet acc.named (jsVal (attrRead a "slot")) with _ | v0
        · rw [hAcc] at h
          rw [ih _ sl h k]
          by_cases hk : k = jsVal (attrRead a "slot")
          · subst hk
            rw [kvGet_kvSet]
            simp [hAcc, firstSlotFor, hkey]
          · rw [kvGet_kvSet, if_neg hk]
            have hk2 : ¬ (jsVal (attrRead a "slot") = k) := fun hh => hk hh.symm
            rcases hO : kvGet acc.named k with _ | v <;>
              simp [hO, firstSlotFor, hkey, hk2, hk]
        · rw [hAcc] at h
          rw [ih _ sl h k]
          by_cases hk : k = jsVal (attrRead a "slot")
          · subst hk
            simp [hAcc, firstSlotFor]
          · have hk2 : ¬ (jsVal (attrRead a "slot") = k) := fun hh => hk hh.symm
            rcases hO : kvGet acc.named k with _ | v <;>
              simp [hO, firstSlotFor, hkey, hk2, hk]
      · have hstate : (slottableHandler acc (.tag n a sc ch)).1
            = { acc with unnamed := acc.unnamed ++ [.tag n a sc ch] } := by
          simp [slottableHandler, hS]
        rw [hstate] at h
        have hkey : slotKeyOf (.tag n a sc ch) = none := by
          simp [slotKeyOf, hS]
        rw [ih _ sl h k]
        rcases hO : kvGet acc.named k with _ | v <;>
          simp [hO, firstSlotFor, hkey]

/-- The unnamed slottables found: exactly the root tags without a `slot`
attribute, in order, after whatever the accumulator already held. -/
theorem findSlottables_unnamed (f : Nat) :
    ∀ (roots : List PTag) (acc sl : Slottables),
      findSlottablesF (f + 1) roots acc = some sl →
      sl.unnamed = acc.unnamed
        ++ roots.filter (fun t => isTagNode t && (slotKeyOf t).isNone) := by
  intro roots
  induction roots with
  | nil =>
    intro acc sl h
    have : acc = sl := by simpa [findSlottablesF] using h
    subst this
    simp
  | cons t ts ih =>
    intro acc sl h
    cases t with
    | text c =>
      have hw : walkF slottableHandler (f + 1) acc (.text c)
          = some (acc, .text c) := by simp [walkF]
      simp only [findSlottablesF, hw] at h
      rw [ih acc sl h]
      simp [isTagNode]
    | tag n a sc ch =>
      simp only [findSlottablesF, walk_slottable_tag] at h
      by_cases hS : attrHas a "slot"
      · have hstate : (slottableHandler acc (.tag n a sc ch)).1
            = { acc with named :=
                match kvGet acc.named (jsVal (attrRead a "slot")) with
                | some _ => acc.named
                | none => kvSet acc.named (jsVal (attrRead a "slot"))
                    (.tag n a sc ch) } := by
          simp [slottableHandler, hS]
        rw [hstate] at h
        rw [ih _ sl h]
        simp [isTagNode, slotKeyOf, hS]
      · have hstate : (slottableHandler acc (.tag n a sc ch)).1
            = { acc with unnamed := acc.unnamed ++ [.tag n a sc ch] } := by
          simp [slottableHandler, hS]
        rw [hstate] at h
        rw [ih _ sl h]
        simp [isTagNode, slotKeyOf, hS]

theorem firstSlotFor_append (k : String) (pre rest : List PTag) (t1 : PTag)
    (hpre : ∀ u ∈ pre, slotKeyOf u ≠ some k)
    (ht1 : slotKeyOf t1 = some k) :
    firstSlotFor k (pre ++ t1 :: rest) = some t1 := by
  induction pre with
  | nil => simp [firstSlotFor, ht1]
  | cons u us ih =>
    have hu : slotKeyOf u ≠ some k := hpre u (List.mem_cons_self u us)
    simp only [List.cons_append, firstSlotFor, if_neg hu]
    exact ih (fun v hv => hpre v (List.mem_cons_of_mem u hv))

/-- The lookup of a named receiver after `_replaceSlots`' mutation pass:
a receiver with a matching slottable holds exactly that slottable as its
sole child. -/
theorem kvGet_replaceNamed (slott : Slottables)
    (m : List (String × PTag)) (k : String) (r t : PTag)
    (hm : kvGet m k = some r) (ht : kvGet slott.named k = some t) :
    kvGet (m.map (fun p =>
      match kvGet slott.named p.1 with
      | some sl => (p.1, setChildren p.2 [sl])
      | none => p)) k = some (setChildren r [t]) := by
  induction m with
  | nil => simp [kvGet] at hm
  | cons p ps ih =>
    by_cases hp : p.1 = k
    · rw [kvGet, if_pos hp] at hm
      injection hm with hm
      subst hm
      rw [List.map_cons]
      rw [show (match kvGet slott.named p.1 with
          | some sl => (p.1, setChildren p.2 [sl])
          | none => p) = (p.1, setChildren p.2 [t]) from by rw [hp, ht]]
      rw [kvGet, if_pos hp]
    · rw [kvGet, if_neg hp] at hm
      rw [List.map_cons]
      rcases hC : kvGet slott.named p.1 with _ | sl
      · rw [kvGet, if_neg hp]
        exact ih hm
      · rw [kvGet, if_neg hp]
        exact ih hm

/-- **C9.** When the caller content holds two or more top-level elements
with the same `slot` attribute value, only the first in document order is
kept: it is the named slottable for that name and, via `_replaceSlots`,
becomes the sole child of a matching named receiver; each later duplicate
is dropped entirely — it is not the named slottable and is not among the
unnamed slottables either. -/
theorem duplicate_slot_first_wins (f : Nat) (pre mid post : List PTag)
    (t1 t2 : PTag) (s : String) (sl : Slottables) (recv : SlotReceivers)
    (r : PTag)
    (h1 : slotKeyOf t1 = some s) (h2 : slotKeyOf t2 = some s)
    (hpre : ∀ u ∈ pre, slotKeyOf u ≠ some s)
    (hfind : findSlottablesF (f + 1) (pre ++ t1 :: mid ++ t2 :: post)
      ⟨[], []⟩ = some sl)
    (hrecv : kvGet recv.named s = some r) :
    kvGet sl.named s = some t1
    ∧ t2 ∉ sl.unnamed
    ∧ kvGet (replaceSlots recv sl).named s = some (setChildren r [t1]) := by
  have hA := findSlottables_named f _ _ _ hfind s
  have hN : kvGet sl.named s
      = firstSlotFor s (pre ++ t1 :: mid ++ t2 :: post) := by
    simpa [kvGet] using hA
  rw [show (pre ++ t1 :: mid ++ t2 :: post : List PTag)
      = pre ++ t1 :: (mid ++ t2 :: post) from by simp] at hN
  rw [firstSlotFor_append s pre (mid ++ t2 :: post) t1 hpre h1] at hN
  have hB := findSlottables_unnamed f _ _ _ hfind
  refine ⟨hN, ?_, ?_⟩
  · intro hmem
    rw [hB] at hmem
    simp only [List.nil_append] at hmem
    have hpred := (List.mem_filter.mp hmem).2
    rw [Bool.and_eq_true] at hpred
    rw [h2] at hpred
    simp at hpred
  · exact kvGet_replaceNamed sl recv.named s r t1 hrecv hN

/-! ### Claim C5: per-session gating of global and unique stylesheets -/

theorem gcGet_fresh (gc : GC) (n : Nat) (tid m : Nat) (h : FreshGC gc n)
    (hm : n ≤ m) : gcGet gc (tid, m) = [] := by
  unfold gcGet
  rw [h (tid, m) hm]
  rfl

/-- `_tryRender` on the global cache projects onto the per-instance
cache. -/
theorem tryRender_some_rel (gc : GC) (cid : Nat) (props : Attrs)
    (theme : Theme) (tpl : MTemplateFn) :
    tryRenderM gc cid props theme (some tpl)
      = match tryRenderTM (gcGet gc (0, cid)) props theme (some tpl) with
        | .error e => .error e
        | .ok (s, tm2) => .ok (s, gcSet gc (0, cid) tm2) := by
  unfold tryRenderM tryRenderTM renderAsTextM
  rcases h : renderAsTextTM (gcGet gc (0, cid)) props theme tpl with e | p
  · simp [h]
  · rcases p with ⟨s, tm2⟩
    simp [h]

/-- `_parseElementCSS` on the global cache projects onto the per-instance
cache: same groups or same error, with the global cache touched only at
this instance's key. -/
theorem parseElementCSS_rel (P : Collab) (cid : Nat) (props : Attrs)
    (theme : Theme) :
    ∀ (css : List MTemplateFn) (gc : GC),
      (match parseElementCSSM P cid props theme gc css,
          parseElementCSSTM P props theme (gcGet gc (0, cid)) css with
        | .error e, .error e2 => e = e2
        | .ok (gs, gc2), .ok (gs2, tm2) =>
          gs = gs2 ∧ gcGet gc2 (0, cid) = tm2
            ∧ (∀ key : Nat × Nat, key ≠ (0, cid) →
                kvGet gc2 key = kvGet gc key)
        | _, _ => False) := by
  intro css
  induction css with
  | nil =>
    intro gc
    simp [parseElementCSSM, parseElementCSSTM]
  | cons tpl rest ih =>
    intro gc
    simp only [parseElementCSSM, parseElementCSSTM, tryRender_some_rel]
    rcases hT : tryRenderTM (gcGet gc (0, cid)) props theme (some tpl)
      with e | p
    · simp
    · rcases p with ⟨text, tm2⟩
      simp only
      have hRec := ih (gcSet gc (0, cid) tm2)
      have hKey : gcGet (gcSet gc (0, cid) tm2) (0, cid) = tm2 := by
        unfold gcGet gcSet
        rw [kvGet_kvSet]
        simp
      rw [hKey] at hRec
      rcases hM : parseElementCSSM P cid props theme (gcSet gc (0, cid) tm2) rest
        with e2 | p2
      · rw [hM] at hRec
        rcases hTM : parseElementCSSTM P props theme tm2 rest with e3 | p3
        · rw [hTM] at hRec
          simpa using hRec
        · rw [hTM] at hRec
          simp at hRec
      · rcases p2 with ⟨gs2, gc3⟩
        rw [hM] at hRec
        rcases hTM : parseElementCSSTM P props theme tm2 rest with e3 | p3
        · rw [hTM] at hRec
          simp at hRec
        · rcases p3 with ⟨gs3, tm3⟩
          rw [hTM] at hRec
          simp only at hRec
          refine ⟨by simp [hRec.1], hRec.2.1, ?_⟩
          intro key hkey
          rw [hRec.2.2 key hkey]
          unfold gcSet
          rw [kvGet_kvSet, if_neg hkey]

theorem exceptMapM_congr {α β : Type} (f g : α → Except PipeErr β)
    (l : List α) (h : ∀ x ∈ l, f x = g x) :
    exceptMapM f l = exceptMapM g l := by
  induction l with
  | nil => rfl
  | cons x xs ih =>
    simp only [exceptMapM, h x (List.mem_cons_self x xs)]
    rw [ih (fun y hy => h y (List.mem_cons_of_mem x hy))]

theorem exceptMapM_map {α β γ : Type} (f : β → Except PipeErr γ)
    (g : α → β) (l : List α) :
    exceptMapM f (l.map g) = exceptMapM (fun x => f (g x)) l := by
  induction l with
  | nil => rfl
  | cons x xs ih =>
    simp only [List.map_cons, exceptMapM]
    rw [ih]

/-- One CSS expansion of the definition, against the session state: its
output is the C5 prediction at the session's current counter value and
first-expansion flag, and the session state advances as expected. -/
theorem cssExpandOnce_spec (P : Collab) (d : DefSpec) (elemIdx : Nat)
    (tagName : String) (props : Attrs) (theme : Theme)
    (children : List PTag) (st : PState) (c : Nat) (b : Bool)
    (hF : FreshGC st.gc st.nextId)
    (hc : (kvGet st.session.cssIdentifierMap elemIdx).getD 0 = c)
    (hb : st.session.sheetSet.contains elemIdx = b) :
    (match cssExpandOnce P d elemIdx tagName props theme children st,
        (match cssGroupsPure P props theme d.css with
          | .error e => .error e
          | .ok gs => cssOutSpecGen P gs tagName children c (!b) :
            Except PipeErr (List PTag)) with
      | .error e, .error e2 => e = e2
      | .ok (out, st2), .ok out2 =>
        out = out2
        ∧ st2.session.cssIdentifierMap
            = kvSet st.session.cssIdentifierMap elemIdx (c + 1)
        ∧ st2.session.sheetSet.contains elemIdx = true
        ∧ st2.session.unnamedElements = st.session.unnamedElements
        ∧ st2.session.elementMap = st.session.elementMap
        ∧ st2.nextId = st.nextId + 1
        ∧ FreshGC st2.gc st2.nextId
      | _, _ => False) := by
  have hEmpty : gcGet st.gc (0, st.nextId) = [] :=
    gcGet_fresh st.gc st.nextId 0 st.nextId hF (Nat.le_refl _)
  have hRel := parseElementCSS_rel P st.nextId props theme d.css st.gc
  rw [hEmpty] at hRel
  unfold cssExpandOnce getCSSAppliedM cssGroupsPure
  simp only [hc]
  rcases hTM : parseElementCSSTM P props theme [] d.css with e | pTM
  · rw [hTM] at hRel
    rcases hM : parseElementCSSM P st.nextId props theme st.gc d.css with e2 | pM
    · rw [hM] at hRel
      simp only [hTM, hM]
      simpa using hRel
    · rw [hM] at hRel
      simp at hRel
  · rcases pTM with ⟨gs, tmF⟩
    rw [hTM] at hRel
    rcases hM : parseElementCSSM P st.nextId props theme st.gc d.css with e2 | pM
    · rw [hM] at hRel
      simp at hRel
    · rcases pM with ⟨gs2, gc2⟩
      rw [hM] at hRel
      simp only at hRel
      obtain ⟨hgs, hgcid, hpres⟩ := hRel
      subst hgs
      simp only [hTM, hM]
      unfold cssOutSpecGen uidOf
      rcases hPfx : addCSSPrefixesM P
          ("css-" ++ tagName ++ "-" ++ toString c) ("css-" ++ tagName) gs2
        with e3 | prefixed
      · simp [hPfx]
      · simp only [hPfx]
        have hFresh2 : FreshGC gc2 (st.nextId + 1) := by
          intro key hkey
          have hne : key ≠ (0, st.nextId) := by
            intro hh
            subst hh
            simp at hkey
          rw [hpres key hne]
          apply hF
          omega
        by_cases hmem : elemIdx ∈ st.session.sheetSet
        · have hbt : b = true := by
            rw [← hb]
            exact List.elem_iff.mpr hmem
          subst hbt
          simp [hmem, hFresh2, List.elem_iff]
        · have hbf : b = false := by
            rw [← hb]
            simp [List.elem_iff, hmem]
          subst hbf
          simp [hmem, hFresh2, List.elem_iff]

/-- N successive CSS expansions, from a state whose counter and
first-expansion flag are known. -/
theorem cssExpandN_spec (P : Collab) (d : DefSpec) (elemIdx : Nat)
    (tagName : String) (props : Attrs) (theme : Theme)
    (children : List PTag) :
    ∀ (N : Nat) (st : PState) (c : Nat) (b : Bool),
      FreshGC st.gc st.nextId →
      (kvGet st.session.cssIdentifierMap elemIdx).getD 0 = c →
      st.session.sheetSet.contains elemIdx = b →
      0 < N →
      Except.map Prod.fst
        (cssExpandN P d elemIdx tagName props theme children N st)
        = (match cssGroupsPure P props theme d.css with
          | .error e => .error e
          | .ok gs =>
            exceptMapM
              (fun j => cssOutSpecGen P gs tagName children (c + j)
                (!b && decide (j = 0)))
              (List.range N) : Except PipeErr (List (List PTag))) := by
  intro N
  induction N with
  | zero =>
    intro st c b hF hc hb hN
    omega
  | succ n ih =>
    intro st c b hF hc hb hN
    have hOnce := cssExpandOnce_spec P d elemIdx tagName props theme children
      st c b hF hc hb
    simp only [cssExpandN]
    rcases hO : cssExpandOnce P d elemIdx tagName props theme children st
      with e | p
    · rw [hO] at hOnce
      rcases hG : cssGroupsPure P props theme d.css with eg | gs
      · rw [hG] at hOnce
        simp only at hOnce
        subst hOnce
        simp [Except.map]
      · rw [hG] at hOnce
        simp only at hOnce
        rcases hGen : cssOutSpecGen P gs tagName children c (!b) with e2 | out2
        · rw [hGen] at hOnce
          simp only at hOnce
          subst hOnce
          rw [List.range_succ_eq_map]
          simp only [exceptMapM]
          have hf0 : cssOutSpecGen P gs tagName children (c + 0)
              (!b && decide True) = .error e := by
            simpa using hGen
          rw [hf0]
          simp [Except.map]
        · rw [hGen] at hOnce
          simp at hOnce
    · rcases p with ⟨out, st2⟩
      rw [hO] at hOnce
      rcases hG : cssGroupsPure P props theme d.css with eg | gs
      · rw [hG] at hOnce
        simp at hOnce
      · rw [hG] at hOnce
        simp only at hOnce
        rcases hGen : cssOutSpecGen P gs tagName children c (!b) with e2 | out2
        · rw [hGen] at hOnce
          simp at hOnce
        · rw [hGen] at hOnce
          simp only at hOnce
          obtain ⟨hout, hmap, hsheet, _, _, hnext, hfresh⟩ := hOnce
          have hTail : Except.map Prod.fst
              (cssExpandN P d elemIdx tagName props theme children n st2)
              = (exceptMapM
                  (fun j => cssOutSpecGen P gs tagName children (c + 1 + j)
                    false)
                  (List.range n) : Except PipeErr (List (List PTag))) := by
            cases n with
            | zero => simp [cssExpandN, exceptMapM, Except.map]
            | succ m =>
              have hc2 : (kvGet st2.session.cssIdentifierMap elemIdx).getD 0
                  = c + 1 := by
                rw [hmap, kvGet_kvSet]
                simp
              have hih := ih st2 (c + 1) true hfresh hc2 hsheet
                (Nat.succ_pos m)
              rw [hG] at hih
              rw [hih]
              apply exceptMapM_congr
              intro j hj
              simp
          rcases hX : cssExpandN P d elemIdx tagName props theme children n st2
            with er | pr
          · rw [hX] at hTail
            simp only [Except.map] at hTail
            rw [List.range_succ_eq_map]
            simp only [exceptMapM]
            have hf0 : cssOutSpecGen P gs tagName children (c + 0)
                (!b && decide True) = .ok out2 := by
              simpa using hGen
            rw [hf0]
            rw [exceptMapM_map]
            have : (exceptMapM
                (fun x => cssOutSpecGen P gs tagName children (c + Nat.succ x)
                  (!b && decide (Nat.succ x = 0)))
                (List.range n) : Except PipeErr (List (List PTag)))
                = exceptMapM
                  (fun j => cssOutSpecGen P gs tagName children (c + 1 + j)
                    false) (List.range n) := by
              apply exceptMapM_congr
              intro j hj
              have : c + Nat.succ j = c + 1 + j := by omega
              simp [this]
            rw [this, ← hTail, hX]
            simp [Except.map]
          · rcases pr with ⟨outs, st3⟩
            rw [hX] at hTail
            simp only [Except.map] at hTail
            rw [List.range_succ_eq_map]
            simp only [exceptMapM]
            have hf0 : cssOutSpecGen P gs tagName children (c + 0)
                (!b && decide True) = .ok out2 := by
              simpa using hGen
            rw [hf0]
            rw [exceptMapM_map]
            have hCv : (exceptMapM
                (fun x => cssOutSpecGen P gs tagName children (c + Nat.succ x)
                  (!b && decide (Nat.succ x = 0)))
                (List.range n) : Except PipeErr (List (List PTag)))
                = exceptMapM
                  (fun j => cssOutSpecGen P gs tagName children (c + 1 + j)
                    false) (List.range n) := by
              apply exceptMapM_congr
              intro j hj
              have : c + Nat.succ j = c + 1 + j := by omega
              simp [this]
            rw [hCv, ← hTail, hX]
            simp [hout, Except.map]

/-- C5: in one document session, expanding a definition's CSS `N > 0` times
produces, for the `k`-th expansion (`k = 0 .. N-1`), the element-global
sheets (prefixed with the fixed component id `css-<tagName>`) on the first
expansion only — so they appear exactly once in the session — while the
unique sheets are included on every expansion, the `k`-th carrying the
distinct identifier `css-<tagName>-<k>`. -/
theorem css_global_once_unique_suffixes (P : Collab) (d : DefSpec)
    (elemIdx : Nat) (tagName : String) (props : Attrs) (theme : Theme)
    (children : List PTag) (st0 : PState) (N : Nat)
    (hF : FreshGC st0.gc st0.nextId)
    (hmap : kvGet st0.session.cssIdentifierMap elemIdx = none)
    (hsheet : st0.session.sheetSet.contains elemIdx = false)
    (hN : 0 < N) :
    Except.map Prod.fst
      (cssExpandN P d elemIdx tagName props theme children N st0)
      = (match cssGroupsPure P props theme d.css with
        | .error e => .error e
        | .ok gs =>
          exceptMapM
            (fun k => cssOutSpecGen P gs tagName children k (decide (k = 0)))
            (List.range N) : Except PipeErr (List (List PTag))) := by
  have h := cssExpandN_spec P d elemIdx tagName props theme children N st0 0
    false hF (by rw [hmap]; rfl) hsheet hN
  rw [h]
  rcases hG : cssGroupsPure P props theme d.css with e | gs
  · rfl
  · apply exceptMapM_congr
    intro j hj
    simp

/-- C5 witness: the definition with one THEME-masked (global) and one
PROP-masked (unique) stylesheet, expanded twice in one fresh session. -/
theorem css_global_once_unique_suffixes_witness :
    FreshGC ([] : GC) 0
    ∧ kvGet freshSession.cssIdentifierMap 0 = none
    ∧ freshSession.sheetSet.contains 0 = false
    ∧ (0 : Nat) < 2
    ∧ Except.map Prod.fst
        (cssExpandN collabW defC5 0 "my-el" [] [] [] 2 ⟨freshSession, [], 0⟩)
        = (match cssGroupsPure collabW [] [] defC5.css with
          | .error e => .error e
          | .ok gs =>
            exceptMapM
              (fun k => cssOutSpecGen collabW gs "my-el" [] k (decide (k = 0)))
              (List.range 2) : Except PipeErr (List (List PTag))) :=
  ⟨fun _ _ => rfl, rfl, rfl, by decide,
    css_global_once_unique_suffixes collabW defC5 0 "my-el" [] [] []
      ⟨freshSession, [], 0⟩ 2 (fun _ _ => rfl) rfl rfl (by decide)⟩

/-! ### Claim C8: session-independence of rendering -/

/-- `_tryRender` with a fresh instance identity `n`: the global-cache run
projects onto the run against an empty per-instance cache, the global
cache being touched at most at this instance's key. -/
theorem tryRender_fresh_rel (gc : GC) (n : Nat) (a : Attrs) (th : Theme)
    (o : Option MTemplateFn) (hF : FreshGC gc n) :
    match tryRenderM gc n a th o, tryRenderTM [] a th o with
    | .error e, .error e2 => e = e2
    | .ok (s, gc1), .ok (s2, tm1) =>
      s = s2 ∧ gcGet gc1 (0, n) = tm1
        ∧ (∀ key : Nat × Nat, key ≠ (0, n) → kvGet gc1 key = kvGet gc key)
    | _, _ => False := by
  rcases o with _ | tpl
  · refine ⟨rfl, ?_, fun _ _ => rfl⟩
    exact gcGet_fresh gc n 0 n hF (le_refl n)
  · rw [tryRender_some_rel, gcGet_fresh gc n 0 n hF (le_refl n)]
    rcases hT : tryRenderTM [] a th (some tpl) with e | p
    · simp
    · rcases p with ⟨s, tm2⟩
      simp only
      refine ⟨by trivial, ?_, ?_⟩
      · unfold gcGet gcSet
        rw [kvGet_kvSet]
        simp
      · intro key hk
        unfold gcSet
        rw [kvGet_kvSet, if_neg hk]

/-- `getCSSApplied` projects onto its cache-free mirror whenever the
instance's per-instance cache is exactly what the global cache holds at
the instance's key; the global cache is touched at most at that key and
the allocator is unchanged. -/
theorem getCSSApplied_rel (P : Collab) (d : DefSpec) (elemIdx cid : Nat)
    (tagName : String) (a : Attrs) (th : Theme) (children : List PTag)
    (st : PState) (tm1 : TMap) (hKey : gcGet st.gc (0, cid) = tm1) :
    match getCSSAppliedM P d elemIdx cid tagName a th children st,
        getCSSAppliedPure P d elemIdx tm1 tagName a th children st.session with
    | .error e, .error e2 => e = e2
    | .ok (out, st2), .ok (out2, sess2) =>
      out = out2 ∧ st2.session = sess2 ∧ st2.nextId = st.nextId
        ∧ (∀ key : Nat × Nat, key ≠ (0, cid) →
            kvGet st2.gc key = kvGet st.gc key)
    | _, _ => False := by
  unfold getCSSAppliedM getCSSAppliedPure
  have hP := parseElementCSS_rel P cid a th d.css st.gc
  rw [hKey] at hP
  rcases hM : parseElementCSSM P cid a th st.gc d.css with e | p
  · rw [hM] at hP
    rcases hTM : parseElementCSSTM P a th tm1 d.css with e2 | p2
    · rw [hTM] at hP
      simp only at hP
      subst hP
      simp
    · rw [hTM] at hP
      simp at hP
  · rcases p with ⟨parsed, gc2⟩
    rw [hM] at hP
    rcases hTM : parseElementCSSTM P a th tm1 d.css with e2 | p2
    · rw [hTM] at hP
      simp at hP
    · rcases p2 with ⟨parsed2, tm2⟩
      rw [hTM] at hP
      simp only at hP
      obtain ⟨hgs, _, hpres⟩ := hP
      subst hgs
      simp only
      rcases hA : addCSSPrefixesM P
          ("css-" ++ tagName ++ "-" ++
            toString ((kvGet st.session.cssIdentifierMap elemIdx).getD 0))
          ("css-" ++ tagName) parsed with e3 | prefixed
      · simp
      · simp only
        exact ⟨by trivial, by trivial, by trivial, hpres⟩

theorem lock_one (P : Collab) (env : List DefSpec) (fuel : Nat)
    (hE : ElemLock P env fuel) : OneLock P env fuel := by
  intro t theme sess gc n hF
  rcases t with ⟨nm, a, sc, ch⟩ | c
  case text =>
    simp only [replaceOneM, replaceOnePure]
    exact ⟨rfl, rfl, hF, le_refl n, fun _ _ => rfl⟩
  case tag =>
    simp only [replaceOneM, replaceOnePure]
    cases hC : nm.contains '-'
    · simp only [hC, Bool.false_eq_true, if_false]
      exact ⟨rfl, rfl, hF, le_refl n, fun _ _ => rfl⟩
    · simp only [hC, if_true]
      rcases hLk : kvGet sess.elementMap nm with _ | elemIdx
      · simp only [hLk]
        exact ⟨rfl, rfl, hF, le_refl n, fun _ _ => rfl⟩
      · simp only [hLk]
        have hEl := hE elemIdx a theme sess gc n hF
        rcases hEm : elementToTagM P env fuel elemIdx a theme ⟨sess, gc, n⟩
          with e | ⟨newTag, st2⟩
        · rw [hEm] at hEl
          rcases hEp : elementToTagPure P env fuel elemIdx a theme sess
            with e2 | p2
          · rw [hEp] at hEl
            exact hEl
          · rw [hEp] at hEl
            simp [LockRel] at hEl
        · rw [hEm] at hEl
          rcases hEp : elementToTagPure P env fuel elemIdx a theme sess
            with e2 | ⟨newTag2, sess2⟩
          · rw [hEp] at hEl
            simp [LockRel] at hEl
          · rw [hEp] at hEl
            simp only [LockRel] at hEl
            obtain ⟨htag, hsess, hFB, hle, hpres⟩ := hEl
            subst htag
            simp only []
            rcases hS : applySlotsF fuel newTag (.tag nm a sc ch)
              with _ | applied
            · exact rfl
            · exact ⟨rfl, hsess, hFB, hle, hpres⟩

theorem lock_rep (P : Collab) (env : List DefSpec) (fuel : Nat)
    (hO : OneLock P env fuel) : RepLock P env fuel := by
  intro tags
  induction tags with
  | nil =>
    intro theme sess gc n hF
    simp only [replaceM, replacePure]
    exact ⟨rfl, rfl, hF, le_refl n, fun _ _ => rfl⟩
  | cons t ts ih =>
    intro theme sess gc n hF
    simp only [replaceM, replacePure]
    have h1 := hO t theme sess gc n hF
    rcases hM : replaceOneM P env fuel t theme ⟨sess, gc, n⟩
      with e | ⟨t2, sessA, gcA, nA⟩
    · rw [hM] at h1
      rcases hP : replaceOnePure P env fuel t theme sess with e2 | p2
      · rw [hP] at h1
        exact h1
      · rw [hP] at h1
        simp [LockRel] at h1
    · rw [hM] at h1
      rcases hP : replaceOnePure P env fuel t theme sess
        with e2 | ⟨t2', sessA2⟩
      · rw [hP] at h1
        simp [LockRel] at h1
      · rw [hP] at h1
        simp only [LockRel] at h1
        obtain ⟨ht, hsess, hFA, hleA, hpresA⟩ := h1
        try simp only [] at hFA
        try simp only [] at hleA
        try simp only [] at hpresA
        subst ht
        subst hsess
        simp only []
        have h2 := ih theme sessA gcA nA hFA
        rcases hM2 : replaceM P env fuel ts theme ⟨sessA, gcA, nA⟩
          with e | ⟨ts2, sessB, gcB, nB⟩
        · rw [hM2] at h2
          rcases hP2 : replacePure P env fuel ts theme sessA with e2 | p2
          · rw [hP2] at h2
            simp only []
            exact h2
          · rw [hP2] at h2
            simp [LockRel] at h2
        · rw [hM2] at h2
          rcases hP2 : replacePure P env fuel ts theme sessA
            with e2 | ⟨ts2', sessB2⟩
          · rw [hP2] at h2
            simp [LockRel] at h2
          · rw [hP2] at h2
            simp only [LockRel] at h2
            obtain ⟨hts, hsessB, hFBf, hleB, hpresB⟩ := h2
            try simp only [] at hFBf
            try simp only [] at hleB
            try simp only [] at hpresB
            subst hts
            subst hsessB
            simp only []
            refine ⟨rfl, rfl, hFBf, by simp only []; omega, ?_⟩
            intro key hk
            simp only []
            rw [hpresB key (by omega), hpresA key hk]

theorem lock_elem_zero (P : Collab) (env : List DefSpec) :
    ElemLock P env 0 := by
  intro elemIdx a th sess gc n hF
  simp [elementToTagM, elementToTagPure, LockRel]

/-- The body of one `elementToTag` expansion after the tag name and the
instance identity have been resolved: the cached run projects onto the
cache-free run. -/
theorem lock_elem_core (P : Collab) (env : List DefSpec) (f : Nat)
    (hR : RepLock P env f) (d : DefSpec) (elemIdx : Nat) (tagName : String)
    (attribs : Attrs) (theme : Theme) (sess1 : SessionM) (gc : GC) (n : Nat)
    (hF : FreshGC gc n) :
    LockRel n gc
      ((match tryRenderM gc n attribs theme d.html with
       | .error e => .error e
       | .ok (text, gc1) =>
         match replaceM P env f (P.parseHTML text) theme
             ⟨sess1, gc1, n + 1⟩ with
         | .error e => .error e
         | .ok (children, st4) =>
           match getCSSAppliedM P d elemIdx n tagName attribs theme children
               st4 with
           | .error e => .error e
           | .ok (cssApplied, st5) =>
             .ok (.tag tagName
               (spreadMergeL
                 (spreadMergeL (splitAttributes d.config attribs).attributes
                   (splitAttributes d.config attribs).publicProps) [])
               false cssApplied, st5) : Except PipeErr (PTag × PState)))
      ((match tryRenderTM [] attribs theme d.html with
       | .error e => .error e
       | .ok (text, tm1) =>
         match replacePure P env f (P.parseHTML text) theme sess1 with
         | .error e => .error e
         | .ok (children, sess2) =>
           match getCSSAppliedPure P d elemIdx tm1 tagName attribs theme
               children sess2 with
           | .error e => .error e
           | .ok (cssApplied, sess3) =>
             .ok (.tag tagName
               (spreadMergeL
                 (spreadMergeL (splitAttributes d.config attribs).attributes
                   (splitAttributes d.config attribs).publicProps) [])
               false cssApplied, sess3) : Except PipeErr (PTag × SessionM))) := by
  have hT := tryRender_fresh_rel gc n attribs theme d.html hF
  rcases hM : tryRenderM gc n attribs theme d.html with e | ⟨text, gc1⟩
  · rw [hM] at hT
    rcases hP : tryRenderTM [] attribs theme d.html with e2 | p2
    · rw [hP] at hT
      simp only at hT
      exact hT
    · rw [hP] at hT
      simp at hT
  · rw [hM] at hT
    rcases hP : tryRenderTM [] attribs theme d.html with e2 | ⟨text2, tm1⟩
    · rw [hP] at hT
      simp at hT
    · rw [hP] at hT
      simp only at hT
      obtain ⟨htext, hkey, hpres1⟩ := hT
      subst htext
      simp only []
      have hF1 : FreshGC gc1 (n + 1) := by
        intro key hk
        have hne : key ≠ (0, n) := by
          intro h
          subst h
          simp at hk
        rw [hpres1 key hne]
        exact hF key (by omega)
      have hRep := hR (P.parseHTML text) theme sess1 gc1 (n + 1) hF1
      rcases hRm : replaceM P env f (P.parseHTML text) theme ⟨sess1, gc1, n + 1⟩
        with e | ⟨children, sessB, gcB, nB⟩
      · rw [hRm] at hRep
        rcases hRp : replacePure P env f (P.parseHTML text) theme sess1
          with e2 | p2
        · rw [hRp] at hRep
          simp only []
          exact hRep
        · rw [hRp] at hRep
          simp [LockRel] at hRep
      · rw [hRm] at hRep
        rcases hRp : replacePure P env f (P.parseHTML text) theme sess1
          with e2 | ⟨children2, sess2⟩
        · rw [hRp] at hRep
          simp [LockRel] at hRep
        · rw [hRp] at hRep
          simp only [LockRel] at hRep
          obtain ⟨hch, hsess, hFB, hle, hpres2⟩ := hRep
          try simp only [] at hFB
          try simp only [] at hle
          try simp only [] at hpres2
          subst hch
          subst hsess
          simp only []
          have hkey4 : gcGet ((⟨sessB, gcB, nB⟩ : PState)).gc (0, n) = tm1 := by
            unfold gcGet at hkey ⊢
            rw [hpres2 (0, n) (by omega)]
            exact hkey
          have hC := getCSSApplied_rel P d elemIdx n tagName attribs theme
            children ⟨sessB, gcB, nB⟩ tm1 hkey4
          rcases hCm : getCSSAppliedM P d elemIdx n tagName attribs theme
              children ⟨sessB, gcB, nB⟩ with e | ⟨cssApplied, sessC, gcC, nC⟩
          · rw [hCm] at hC
            rcases hCp : getCSSAppliedPure P d elemIdx tm1 tagName attribs
                theme children sessB with e2 | p2
            · rw [hCp] at hC
              simp only []
              exact hC
            · rw [hCp] at hC
              simp at hC
          · rw [hCm] at hC
            rcases hCp : getCSSAppliedPure P d elemIdx tm1 tagName attribs
                theme children sessB with e2 | ⟨css2, sess3⟩
            · rw [hCp] at hC
              simp at hC
            · rw [hCp] at hC
              simp only at hC
              obtain ⟨hcss, hsess3, hnC, hpres3⟩ := hC
              try simp only [] at hnC
              try simp only [] at hpres3
              subst hcss
              subst hsess3
              simp only []
              refine ⟨rfl, rfl, ?_, by simp only []; omega, ?_⟩
              · intro key hk
                simp only [] at hk ⊢
                have hne : key ≠ (0, n) := by
                  intro h
                  subst h
                  simp at hk
                  omega
                rw [hpres3 key hne]
                exact hFB key (by omega)
              · intro key hk
                simp only []
                have hne : key ≠ (0, n) := by
                  intro h
                  subst h
                  simp only [] at hk
                  omega
                rw [hpres3 key hne, hpres2 key (by omega), hpres1 key hne]

theorem lock_elem_succ (P : Collab) (env : List DefSpec) (f : Nat)
    (hR : RepLock P env f) : ElemLock P env (f + 1) := by
  intro elemIdx attribs theme sess gc n hF
  simp only [elementToTagM, elementToTagPure]
  rcases hE : env[elemIdx]? with _ | d
  · exact rfl
  · simp only []
    rcases hIs : d.is with _ | tn
    · simp only []
      exact lock_elem_core P env f hR d elemIdx
        ("wclib-element" ++ toString sess.unnamedElements) attribs theme
        { sess with unnamedElements := sess.unnamedElements + 1 } gc n hF
    · simp only []
      exact lock_elem_core P env f hR d elemIdx tn attribs theme sess gc n hF

/-- Every component of the pipeline is in lockstep with its cache-free
mirror at every fuel. -/
theorem lock_all (P : Collab) (env : List DefSpec) (fuel : Nat) :
    ElemLock P env fuel ∧ OneLock P env fuel ∧ RepLock P env fuel := by
  induction fuel with
  | zero =>
    have hE := lock_elem_zero P env
    have hO := lock_one P env 0 hE
    exact ⟨hE, hO, lock_rep P env 0 hO⟩
  | succ f ih =>
    have hE := lock_elem_succ P env f (lock_rep P env f (lock_one P env f ih.1))
    have hO := lock_one P env (f + 1) hE
    exact ⟨hE, hO, lock_rep P env (f + 1) hO⟩

/-- The output text of `_Rendering.render` depends only on the session
component of a fresh state: it equals the cache-free run's text. -/
theorem renderM_session_only (P : Collab) (env : List DefSpec)
    (fuel rootIdx : Nat) (a : Attrs) (th : Theme) (sess : SessionM)
    (gc : GC) (n : Nat) (hF : FreshGC gc n) :
    Except.map Prod.fst (renderM P env fuel rootIdx a th ⟨sess, gc, n⟩)
      = Except.map Prod.fst (renderPure P env fuel rootIdx a th sess) := by
  have hE := (lock_all P env fuel).1 rootIdx a th sess gc n hF
  unfold renderM renderPure
  rcases hM : elementToTagM P env fuel rootIdx a th ⟨sess, gc, n⟩
    with e | ⟨dom, st2⟩
  · rw [hM] at hE
    rcases hP : elementToTagPure P env fuel rootIdx a th sess with e2 | p2
    · rw [hP] at hE
      simp only [LockRel] at hE
      subst hE
      rfl
    · rw [hP] at hE
      simp [LockRel] at hE
  · rw [hM] at hE
    rcases hP : elementToTagPure P env fuel rootIdx a th sess
      with e2 | ⟨dom2, sess2⟩
    · rw [hP] at hE
      simp [LockRel] at hE
    · rw [hP] at hE
      simp only [LockRel] at hE
      obtain ⟨hdom, _, _, _, _⟩ := hE
      subst hdom
      simp [Except.map]

/-- C8: for every definition environment, root definition, props,
attribute bag and theme, rendering with two independently created fresh
document sessions — whatever each run's global templater cache and
already-allocated instance identities hold, as long as they are disjoint
from the identities the run will draw — produces byte-identical output
text. -/
theorem renderElement_session_independent (P : Collab) (env : List DefSpec)
    (fuel rootIdx : Nat) (props attributes : Attrs) (theme : Theme)
    (g1 g2 : GC) (n1 n2 : Nat)
    (h1 : FreshGC g1 n1) (h2 : FreshGC g2 n2) :
    Except.map Prod.fst
      (renderElementM P env fuel rootIdx props attributes theme
        ⟨freshSession, g1, n1⟩)
      = Except.map Prod.fst
        (renderElementM P env fuel rootIdx props attributes theme
          ⟨freshSession, g2, n2⟩) := by
  unfold renderElementM
  rcases hB : buildMapF env fuel rootIdx [] with _ | m
  · rfl
  · simp only []
    rw [renderM_session_only P env fuel rootIdx (spreadMergeL props attributes)
      theme _ g1 n1 h1,
      renderM_session_only P env fuel rootIdx (spreadMergeL props attributes)
      theme _ g2 n2 h2]

/-- C8 witness: the one-definition environment rendered from a blank
global cache and from a cache pre-populated by an earlier session. -/
theorem renderElement_session_independent_witness :
    FreshGC ([] : GC) 0
    ∧ FreshGC gcPre 1
    ∧ Except.map Prod.fst
        (renderElementM collabW envC8 3 0 [] [] [] ⟨freshSession, [], 0⟩)
        = Except.map Prod.fst
          (renderElementM collabW envC8 3 0 [] [] [] ⟨freshSession, gcPre, 1⟩) :=
  ⟨fun _ _ => rfl,
    fun k hk => by
      unfold gcPre kvGet
      rw [if_neg]
      · rfl
      · intro h
        rw [← h] at hk
        simp at hk,
    renderElement_session_independent collabW envC8 3 0 [] [] [] [] gcPre 0 1
      (fun _ _ => rfl)
      (fun k hk => by
        unfold gcPre kvGet
        rw [if_neg]
        · rfl
        · intro h
          rw [← h] at hk
          simp at hk)⟩

unseal walkF walkChildrenF in
/-- C9 witness: two spans both carrying `slot="a"`; the first is the named
slottable, the second is nowhere, and the matching receiver ends up with
the first as sole child. -/
theorem duplicate_slot_first_wins_witness :
    findSlottablesF 1 [spanSlotA, spanSlotA2] ⟨[], []⟩
      = some ⟨[("a", spanSlotA)], []⟩
    ∧ kvGet (⟨[("a", spanSlotA)], []⟩ : Slottables).named "a" = some spanSlotA
    ∧ spanSlotA2 ∉ (⟨[("a", spanSlotA)], []⟩ : Slottables).unnamed
    ∧ kvGet (replaceSlots ⟨[("a", slotNamedA)], none⟩
        ⟨[("a", spanSlotA)], []⟩).named "a"
      = some (setChildren slotNamedA [spanSlotA]) := by
  refine ⟨rfl, ?_⟩
  have h := duplicate_slot_first_wins 0 [] [] [] spanSlotA spanSlotA2 "a"
    ⟨[("a", spanSlotA)], []⟩ ⟨[("a", slotNamedA)], none⟩ slotNamedA
    rfl rfl (fun u hu => absurd hu (List.not_mem_nil u)) rfl rfl
  exact h

/-! ### Claim C4: the slot round-trip

`Tag.walk` turns a handler's `undefined` into `{ stop: true, newTag:
this }`, so `_findSlotReceivers` — whose handler returns `undefined` for
every non-`<slot>` node — never descends below the roots of the receiver
forest.  For the claim's receiver tree the only root is a `<div>`, hence
no receivers are found, the caller content has nowhere to go, and the
tree comes back unchanged. -/

unseal walkF walkChildrenF in
/-- **C4.** On the claim's own input — receiver
`<div><slot name="a"></slot><slot></slot></div>`, caller content
`<span slot="a">X</span><b>Y</b>` — slot resolution finds *no* receivers
(the slots sit below the root `<div>` and the walk stops there), finds
both slottables, and returns the receiver tree unchanged instead of the
claimed filled tree: the nested slot placeholders are not located and the
caller content is dropped. -/
theorem applySlots_drops_nested_receivers :
    findSlotReceiversF 5 (childrenOf elementC4) ⟨[], none⟩ = some ⟨[], none⟩
    ∧ findSlottablesF 5 (childrenOf lightC4) ⟨[], []⟩
        = some ⟨[("a", spanSlotA)], [boldY]⟩
    ∧ applySlotsF 5 elementC4 lightC4 = some elementC4
    ∧ elementC4 ≠ claimedC4 :=
  ⟨rfl, rfl, rfl, by decide⟩

unseal buildMapF buildDepsF regSeqF regSeqDepsF in
/-- C7 witness: on `envDup` the registration sequence is
`[(r,0), (x,1), (x,2)]` and the final binding of `x` is its last
registration, index 2. -/
theorem buildMap_last_registration_wins_witness :
    buildMapF envDup 3 0 [] = some [("r", 0), ("x", 2)]
    ∧ regSeqF envDup 3 0 = some [("r", 0), ("x", 1), ("x", 2)]
    ∧ kvGet [(("r" : String), (0 : Nat)), ("x", 2)] "x"
        = lastRegOf [("r", 0), ("x", 1), ("x", 2)] "x"
    ∧ lastRegOf [(("r" : String), (0 : Nat)), ("x", 1), ("x", 2)] "x" = some 2 :=
  ⟨rfl, rfl,
    buildMap_last_registration_wins envDup 3 0 [("r", 0), ("x", 2)]
      [("r", 0), ("x", 1), ("x", 2)] rfl rfl "x",
    by decide⟩

end Wclib
